import Mathlib

/-!
Verification of the doc-agent workflow engine (`src/doc_agent`): a shallow
embedding of the typed parameter model (`types.py`), the step lifecycle and
variable-interpolation engine (`steps/base.py`, `steps/dummy.py`) and the
workflow runner (`workflowyaml.py`), together with theorems settling the
specification claims about them.

Modelling conventions:
* Python scalar values are embedded as `PyVal`; Python floats are modelled as
  rationals (the engine performs no float arithmetic, only conversion).
* Python exceptions are embedded as `PyErr` and raised through `Except`.
* In-place mutation of dictionaries and of bound parameter objects is embedded
  as explicit state passing: every embedded method returns the post-state of
  the objects the Python code mutates.
* The unbounded `while` loop of `fill_value` is embedded with an explicit
  fuel parameter; `none` means the fuel was exhausted (the Python loop can
  genuinely diverge when a substituted value reintroduces its own token).
* Wall-clock timestamps (`started_at` / `finished_at`) are not representable
  in a pure embedding and are omitted from the result records.
-/

set_option maxHeartbeats 1000000
set_option synthInstance.maxSize 2048

namespace DocAgent

instance {ε α : Type} [DecidableEq ε] [DecidableEq α] : DecidableEq (Except ε α) := fun x y =>
  match x, y with
  | Except.ok a, Except.ok b => decidable_of_iff (a = b) (by simp)
  | Except.error a, Except.error b => decidable_of_iff (a = b) (by simp)
  | Except.ok _, Except.error _ => isFalse (by simp)
  | Except.error _, Except.ok _ => isFalse (by simp)

/-- A Python runtime value as it occurs in the workflow engine: `none` is
Python `None`, `undef` is `pydantic_core.PydanticUndefined`, and the scalar
constructors carry strings, ints, floats (modelled as rationals) and bools. -/
inductive PyVal where
  | none : PyVal
  | undef : PyVal
  | str : String → PyVal
  | int : Int → PyVal
  | float : Rat → PyVal
  | bool : Bool → PyVal
  deriving DecidableEq, Repr

/-- The Python exceptions raised by the embedded fragment.
`valueReferenceError step_name incorrect_variable available_variables`
embeds `doc_agent.steps.base.ValueReferenceError`. -/
inductive PyErr where
  | valueError : String → PyErr
  | typeError : String → PyErr
  | valueReferenceError : String → String → List String → PyErr
  | runtimeError : String → PyErr
  | assertionError : PyErr
  | keyError : String → PyErr
  deriving DecidableEq, Repr

/-- Python `type(v).__name__` for the embedded values. -/
def pyTypeName : PyVal → String
  | .none => "NoneType"
  | .undef => "PydanticUndefinedType"
  | .str _ => "str"
  | .int _ => "int"
  | .float _ => "float"
  | .bool _ => "bool"

/-- Display of an embedded Python float, used only by `pyStr`.  Python prints
a float with at least one decimal; non-integral rationals are shown as
fractions (a modelling choice - no claim stringifies a non-integral float). -/
def floatRepr (q : Rat) : String :=
  if q.den = 1 then toString q.num ++ ".0"
  else toString q.num ++ "/" ++ toString q.den

/-- Python `str(v)` on the embedded values. -/
def pyStr : PyVal → String
  | .none => "None"
  | .undef => "PydanticUndefined"
  | .str s => s
  | .int n => toString n
  | .float q => floatRepr q
  | .bool b => if b then "True" else "False"

/-- Python truthiness, `bool(v)`, on the embedded values. -/
def pyTruthy : PyVal → Bool
  | .none => false
  | .undef => true
  | .str s => s != ""
  | .int n => n != 0
  | .float q => q != 0
  | .bool b => b

/-- Digits-to-rational helper for `parseFloatStr`. -/
def parseFloatDigits (intPart fracPart : List Char) : Rat :=
  let iv : Nat := intPart.foldl (fun a c => a * 10 + (c.toNat - 48)) 0
  let fv : Nat := fracPart.foldl (fun a c => a * 10 + (c.toNat - 48)) 0
  (iv : Rat) + (fv : Rat) / ((10 : Rat) ^ fracPart.length)

/-- Model of Python `float(s)` on strings: optional surrounding spaces,
optional sign, decimal digits with at most one point (`"3"`, `"3.5"`,
`".5"`, `"2."`).  Exponents and `inf`/`nan` are not modelled; unparseable
strings fail like Python's `ValueError`. -/
def parseFloatStr (s : String) : Option Rat :=
  let l := (s.data.dropWhile (· == ' ')).reverse.dropWhile (· == ' ') |>.reverse
  let signed : Bool × List Char :=
    match l with
    | '-' :: t => (true, t)
    | '+' :: t => (false, t)
    | t => (false, t)
  let neg := signed.1
  let body := signed.2
  let ip := body.takeWhile Char.isDigit
  let rest := body.dropWhile Char.isDigit
  match rest with
  | [] =>
    if ip.isEmpty then Option.none
    else some (if neg then -(parseFloatDigits ip []) else parseFloatDigits ip [])
  | '.' :: t =>
    let fp := t.takeWhile Char.isDigit
    let rest2 := t.dropWhile Char.isDigit
    if rest2.isEmpty && !(ip.isEmpty && fp.isEmpty) then
      some (if neg then -(parseFloatDigits ip fp) else parseFloatDigits ip fp)
    else Option.none
  | _ => Option.none

/-- Python `float(v)`: converts numbers and bools, parses strings, raises
`TypeError` on `None`/undefined and `ValueError` on unparseable strings. -/
def pyFloat : PyVal → Except PyErr PyVal
  | .int n => .ok (.float (n : Rat))
  | .float q => .ok (.float q)
  | .bool b => .ok (.float (if b then 1 else 0))
  | .str s =>
    match parseFloatStr s with
    | some q => .ok (.float q)
    | Option.none => .error (.valueError ("could not convert string to float: '" ++ s ++ "'"))
  | .none => .error (.typeError "float() argument must be a string or a real number, not 'NoneType'")
  | .undef => .error (.typeError "float() argument must be a string or a real number, not 'PydanticUndefinedType'")

/-- Python `repr` of a list of strings, as produced by `f"{errors}"`. -/
def pyListRepr (xs : List String) : String :=
  "[" ++ String.intercalate ", " (xs.map (fun s => "'" ++ s ++ "'")) ++ "]"

/-- `str(e)` for the embedded exceptions.  For `ValueReferenceError` this is
the message built in its `__init__` (`steps/base.py` lines 19-29). -/
def pyErrStr : PyErr → String
  | .valueError m => m
  | .typeError m => m
  | .valueReferenceError step_name incorrect_variable available_variables =>
    "Value for " ++ step_name ++ "." ++ incorrect_variable ++ " not found, " ++
      "available variables are: " ++ String.intercalate ", " available_variables
  | .runtimeError m => m
  | .assertionError => ""
  | .keyError k => "'" ++ k ++ "'"

/-- `pat` a (character-list) prefix of `s`? -/
def isPreOf : List Char → List Char → Bool
  | [], _ => true
  | _ :: _, [] => false
  | p :: ps, c :: t => p == c && isPreOf ps t

/-- Worker for `pyReplace`; the `Nat` is fuel, one unit per character of the
subject, so `s.length` units always suffice. -/
def pyReplaceAux (pat rep : List Char) : Nat → List Char → List Char
  | _, [] => []
  | 0, s => s
  | Nat.succ fuel, c :: t =>
    if isPreOf pat (c :: t) && !pat.isEmpty then
      rep ++ pyReplaceAux pat rep fuel (List.drop (pat.length - 1) t)
    else c :: pyReplaceAux pat rep fuel t

/-- Model of Python `str.replace(pat, rep)` (and of `String.replace`):
replaces every non-overlapping occurrence of `pat`, scanning left to right.
Defined by structural recursion so that it evaluates inside the kernel. -/
def pyReplace (s pat rep : String) : String :=
  String.mk (pyReplaceAux pat.data rep.data s.data.length s.data)

/-- Lookup in an embedded Python `dict` (association list with unique keys,
insertion-ordered like a Python dict). -/
def alistGet {α : Type} : List (String × α) → String → Option α
  | [], _ => Option.none
  | (k', v) :: t, k => if k' = k then some v else alistGet t k

/-- `d[k] = v` on an embedded Python `dict`: updates in place (keeping the
key's position) or appends, exactly like dict assignment. -/
def alistSet {α : Type} : List (String × α) → String → α → List (String × α)
  | [], k, v => [(k, v)]
  | (k', v') :: t, k, v =>
    if k' = k then (k, v) :: t else (k', v') :: alistSet t k v

/-- `d.update(u)` on an embedded Python `dict`. -/
def alistUpdate {α : Type} (m u : List (String × α)) : List (String × α) :=
  u.foldl (fun acc kv => alistSet acc kv.1 kv.2) m

/-- `dict.get(k)` with Python's `None` default: a missing key and a key bound
to `None` are both observed as `None` by the caller. -/
def pyDictGet (m : List (String × PyVal)) (k : String) : PyVal :=
  match alistGet m k with
  | some v => v
  | Option.none => PyVal.none

/-- `doc_agent.types.ParameterDataType`. -/
inductive ParameterDataType where
  | STRING | MARKDOWN | NUMBER | BOOLEAN | OBJECT | DATETIME | FILE | OPTION | OUTPUT
  deriving DecidableEq, Repr

/-- `doc_agent.types.WorkflowStepStatus`. -/
inductive WorkflowStepStatus where
  | SUCCESS | FAILURE
  deriving DecidableEq, Repr

/-- `doc_agent.types.WorkflowRunStatus`. -/
inductive WorkflowRunStatus where
  | SUBMITTED | RUNNING | SUCCESS | FAILURE | CANCELLED
  deriving DecidableEq, Repr

/-- `doc_agent.types.InputPermissionLevel`. -/
inductive InputPermissionLevel where
  | READ_ONLY | READ_WRITE | NO_ACCESS
  deriving DecidableEq, Repr

/-- `doc_agent.types.Parameter` (the pydantic model's data fields;
`content_type` is kept as a plain optional string). -/
structure Parameter where
  name : String
  data_type : ParameterDataType
  value : PyVal := PyVal.none
  optional : Bool := false
  default : PyVal := PyVal.none
  description : Option String := Option.none
  content_type : Option String := Option.none
  choices : Option (List String) := Option.none
  invisible : Bool := false
  mention_data_only : Bool := false
  deriving DecidableEq, Repr

/-- `Parameter.v` (`types.py` lines 59-76): the resolved value property.
`float(v)` can raise, so the embedding returns `Except`. -/
def Parameter.v (p : Parameter) : Except PyErr PyVal :=
  let v0 := p.value
  let v1 := if v0 = PyVal.none then p.default else v0
  let v2 := if v1 = PyVal.undef then PyVal.none else v1
  if p.data_type = ParameterDataType.STRING then
    Except.ok (PyVal.str (pyStr v2))
  else if p.data_type = ParameterDataType.NUMBER then
    if v2 ≠ PyVal.none then pyFloat v2 else Except.ok PyVal.none
  else if p.data_type = ParameterDataType.BOOLEAN then
    Except.ok (PyVal.bool (pyTruthy v2))
  else
    Except.ok v2

/-- `Parameter.get_dry_run_value` (`types.py` lines 108-119): the fixed
dry-run placeholder; the leading `assert` raises for other data types. -/
def Parameter.get_dry_run_value (p : Parameter) : Except PyErr PyVal :=
  if p.data_type = ParameterDataType.STRING ∨ p.data_type = ParameterDataType.NUMBER ∨
      p.data_type = ParameterDataType.BOOLEAN then
    if p.data_type = ParameterDataType.STRING then Except.ok (PyVal.str "dummy")
    else if p.data_type = ParameterDataType.NUMBER then Except.ok (PyVal.int 0)
    else Except.ok (PyVal.bool false)
  else Except.error PyErr.assertionError

/-- `Parameter.value_validation` (`types.py` lines 121-147).  Note Python's
`isinstance(v, (int, float))` is true for bools (bool subclasses int), the
`float(v)` attempt catches only `ValueError` (a `TypeError` propagates), and
`bool(v)` never raises, so the BOOLEAN branch never records an error. -/
def Parameter.value_validation (p : Parameter) : Except PyErr (List String) :=
  let e1 : List String :=
    if p.value = PyVal.none ∧ p.optional = false then
      ["Parameter " ++ p.name ++ " is required"]
    else []
  if p.value = PyVal.none then Except.ok e1
  else
    match p.data_type with
    | ParameterDataType.STRING =>
      match p.value with
      | .str _ => Except.ok e1
      | v => Except.ok (e1 ++ ["Invalid data type for " ++ p.name ++ ": " ++ pyStr v ++
          ", expected string, got " ++ pyTypeName v])
    | ParameterDataType.NUMBER =>
      match p.value with
      | .int _ => Except.ok e1
      | .float _ => Except.ok e1
      | .bool _ => Except.ok e1
      | v =>
        match pyFloat v with
        | .ok _ => Except.ok e1
        | .error (.valueError _) => Except.ok (e1 ++ ["Invalid data type for " ++ p.name ++
            ": " ++ pyStr v ++ ", expected number"])
        | .error e => Except.error e
    | ParameterDataType.BOOLEAN => Except.ok e1
    | _ => Except.ok e1

/-- `doc_agent.types.InputParameter`: a `Parameter` plus a user permission. -/
structure InputParameter extends Parameter where
  user_permission : InputPermissionLevel := InputPermissionLevel.READ_WRITE
  deriving DecidableEq, Repr

/-- `doc_agent.types.WorkflowStepResult` (timestamps omitted, see header). -/
structure WorkflowStepResult where
  step_name : String
  step_type : String
  status : WorkflowStepStatus
  status_reason : Option String := Option.none
  inputs : List Parameter := []
  outputs : List Parameter := []
  deriving DecidableEq, Repr

/-- `doc_agent.types.WorkflowRunResult`. -/
structure WorkflowRunResult where
  status : WorkflowRunStatus
  result : List WorkflowStepResult
  deriving DecidableEq, Repr

/-- `doc_agent.types.ValidationError`. -/
structure ValidationError where
  loc : Option String
  msg : String
  type : String
  deriving DecidableEq, Repr

/-! ## `steps/base.py`: reference resolution -/

/-- The character class `[a-zA-Z0-9_]` of the reference-token regex. -/
def isIdentChar (c : Char) : Bool := c.isAlpha || c.isDigit || c == '_'

/-- One anchored match attempt of the regex
`@\x7b[\ ]*([a-zA-Z0-9_]+)[\ ]*\.[\ ]*([a-zA-Z0-9_]+)[\ ]*\x7d`
(`steps/base.py` lines 51-53) at the head of the character list.  Returns the
two capture groups and the remainder after the match.  Greedy matching of the
regex is deterministic here because the space, identifier, `.` and `\x7d`
character classes are disjoint, so maximal munch is exact. -/
def tryMatchRef : List Char → Option (List Char × List Char × List Char)
  | c1 :: c2 :: r0 =>
    if c1 = '@' ∧ c2 = '{' then
      let r1 := r0.dropWhile (· == ' ')
      let st := r1.takeWhile isIdentChar
      let r2 := r1.dropWhile isIdentChar
      if st.isEmpty then Option.none else
      match r2.dropWhile (· == ' ') with
      | c3 :: r4 =>
        if c3 = '.' then
          let r5 := r4.dropWhile (· == ' ')
          let pn := r5.takeWhile isIdentChar
          let r6 := r5.dropWhile isIdentChar
          if pn.isEmpty then Option.none else
          match r6.dropWhile (· == ' ') with
          | c4 :: r8 => if c4 = '}' then some (st, pn, r8) else Option.none
          | [] => Option.none
        else Option.none
      | [] => Option.none
    else Option.none
  | _ => Option.none

/-- `re.search` of the reference-token regex: leftmost match.  Returns the
two capture groups together with the full matched text (`match.group(0)`). -/
def findRef : List Char → Option (List Char × List Char × List Char)
  | [] => Option.none
  | c :: t =>
    match tryMatchRef (c :: t) with
    | some r => some (r.1, r.2.1, (c :: t).take ((c :: t).length - r.2.2.length))
    | Option.none => findRef t

/-- The run-time context: a Python dict from `"<stepName>.<parameterName>"`
keys to values. -/
abbrev Ctx := List (String × PyVal)

/-- The body of the `while` loop of `fill_value` (`steps/base.py` lines
48-69), with explicit fuel for the unbounded loop.  `none` means the fuel ran
out.  As in the source, `context.get` yields `None` both for a missing key
and for a key bound to `None`, and `str.replace` replaces every occurrence
of the matched token. -/
def fillLoop (ctx : Ctx) (current_step_name : String) : Nat → String → Option (Except PyErr String)
  | 0, _ => Option.none
  | Nat.succ fuel, value_str =>
    match findRef value_str.data with
    | Option.none => some (Except.ok value_str)
    | some (st, pn, tok) =>
      let key := String.mk st ++ "." ++ String.mk pn
      let v := pyDictGet ctx key
      if v = PyVal.none then
        some (Except.error (PyErr.valueReferenceError current_step_name key (ctx.map Prod.fst)))
      else
        fillLoop ctx current_step_name fuel (pyReplace value_str (String.mk tok) (pyStr v))

/-- `fill_value` (`steps/base.py` lines 32-69): non-strings pass through
unchanged; strings run the substitution loop. -/
def fill_value (fuel : Nat) (value : PyVal) (ctx : Ctx) (current_step_name : String := "") :
    Option (Except PyErr PyVal) :=
  match value with
  | PyVal.str s => (fillLoop ctx current_step_name fuel s).map (Except.map PyVal.str)
  | v => some (Except.ok v)

/-! ## `steps/base.py`: the step lifecycle -/

/-- The mutable per-instance data of a `BaseStep`: its name, the `context`
constructor kwarg (always empty in the embedded fragment - no embedded step
declares a `context` input) and the two bound parameter dicts. -/
structure StepData where
  name : String
  context0 : Ctx := []
  inputs : List (String × Parameter) := []
  outputs : List (String × Parameter) := []
  deriving DecidableEq, Repr

/-- The static side of a step type: its registered aliases, declared schema
and `process` behaviour (`BaseStep` class attributes and the subclass's
`process`).  Dynamic outputs (`allow_dynamic_outputs`, used only by the
LLM step, whose live behaviour is an external OpenAI call) are outside the
embedded fragment. -/
structure StepClass where
  className : String
  registered_names : List String := []
  description : String := ""
  required_integrations : List String := []
  input_parameters : List Parameter := []
  output_parameters : List Parameter := []
  process : StepData → Bool → Except PyErr (List (String × PyVal))

/-- A constructed step instance: its class together with its bound data. -/
structure StepState where
  cls : StepClass
  data : StepData

/-- The input-binding loop of `BaseStep.__init__` (`steps/base.py` lines
114-130): bind supplied kwargs, raise on a missing required input, apply a
non-`None` declared default for a missing optional one. -/
def bindInputs : List (String × Parameter) → List (String × PyVal) → Except PyErr (List (String × Parameter))
  | [], _ => Except.ok []
  | (k, p) :: rest, kwargs =>
    match alistGet kwargs k with
    | some v => (bindInputs rest kwargs).map (fun r => (k, {p with value := v}) :: r)
    | Option.none =>
      if p.optional = false then
        Except.error (PyErr.valueError ("Missing required input parameter " ++ k))
      else if p.default ≠ PyVal.none then
        (bindInputs rest kwargs).map (fun r => (k, {p with value := p.default}) :: r)
      else
        (bindInputs rest kwargs).map (fun r => (k, p) :: r)

/-- `BaseStep.__init__` (`steps/base.py` lines 80-135): deep-copy the
declared schema with all values reset to `None`, bind the supplied inputs,
and reject a name occurring in both input and output dicts. -/
def stepNew (cls : StepClass) (name : String) (kwargs : List (String × PyVal)) :
    Except PyErr StepState :=
  let inputs0 := cls.input_parameters.map (fun p => (p.name, {p with value := PyVal.none}))
  let outputs := cls.output_parameters.map (fun p => (p.name, {p with value := PyVal.none}))
  match bindInputs inputs0 kwargs with
  | Except.error e => Except.error e
  | Except.ok inputs =>
    match (inputs.map Prod.fst).find? (fun k => (alistGet outputs k).isSome) with
    | some k => Except.error (PyErr.valueError ("Duplicate parameter name " ++ k))
    | Option.none => Except.ok ⟨cls, { name := name, context0 := [], inputs := inputs, outputs := outputs }⟩

/-- The input-resolution loop of `BaseStep.run` (`steps/base.py` lines
153-156): each bound non-`None` input is resolved via `fill_value` and
published into the context under `"<stepName>.<inputName>"`.  An exception
aborts the loop, leaving the already-processed prefix mutated; the outcome
carries the (partially) mutated inputs, the context, and the exception if
one was raised. -/
def fillInputsLoop (fuel : Nat) (stepName : String) :
    List (String × Parameter) → Ctx → Option (List (String × Parameter) × Ctx × Option PyErr)
  | [], ctx => some ([], ctx, Option.none)
  | (k, p) :: rest, ctx =>
    if p.value = PyVal.none then
      (fillInputsLoop fuel stepName rest ctx).map (fun r => ((k, p) :: r.1, r.2.1, r.2.2))
    else
      match fill_value fuel p.value ctx stepName with
      | Option.none => Option.none
      | some (Except.error e) => some ((k, p) :: rest, ctx, some e)
      | some (Except.ok v) =>
        let ctx2 := alistSet ctx (stepName ++ "." ++ k) v
        (fillInputsLoop fuel stepName rest ctx2).map
          (fun r => ((k, {p with value := v}) :: r.1, r.2.1, r.2.2))

/-- The output-publication loop of `BaseStep.run` (`steps/base.py` lines
165-171): returned keys found among the declared outputs are bound and
published; unknown keys are dropped with a warning. -/
def applyOutputs (stepName : String) :
    List (String × PyVal) → List (String × Parameter) → Ctx → List (String × Parameter) × Ctx
  | [], outs, ctx => (outs, ctx)
  | (k, v) :: rest, outs, ctx =>
    match alistGet outs k with
    | some p =>
      applyOutputs stepName rest (alistSet outs k {p with value := v})
        (alistSet ctx (stepName ++ "." ++ k) v)
    | Option.none => applyOutputs stepName rest outs ctx

/-- The `_outputs` list of `BaseStep.run` (`steps/base.py` lines 174-179):
copies of the declared output parameters, in the order of the `process`
result, restricted to declared keys, each bound to the returned value. -/
def buildOutputs (outs : List (String × Parameter)) : List (String × PyVal) → List Parameter
  | [] => []
  | (k, v) :: rest =>
    match alistGet outs k with
    | some p => {p with value := v} :: buildOutputs outs rest
    | Option.none => buildOutputs outs rest

/-- The FAILURE `WorkflowStepResult` built in the `except` branch of
`BaseStep.run` (`steps/base.py` lines 194-206): the non-`None` bound inputs
at exception time and a single `error` output carrying `str(e)`. -/
def failureResult (d : StepData) (cls : StepClass) (e : PyErr) : WorkflowStepResult :=
  { step_name := d.name
    step_type := cls.className
    status := WorkflowStepStatus.FAILURE
    status_reason := Option.none
    inputs := (d.inputs.map Prod.snd).filter (fun p => p.value != PyVal.none)
    outputs := [{ name := "error", data_type := ParameterDataType.STRING,
                  value := PyVal.str (pyErrStr e) }] }

/-- `BaseStep.run` (`steps/base.py` lines 140-206): resolve inputs, invoke
`process`, publish outputs, and build the step result.  In live mode any
exception from resolution or `process` is converted into a FAILURE result;
in dry-run mode it is re-raised (`Except.error`).  The returned triple is
the mutated step instance, the mutated context, and the outcome. -/
def BaseStep.run (fuel : Nat) (st : StepState) (context : Ctx) (dry_run : Bool) :
    Option (StepState × Ctx × Except PyErr WorkflowStepResult) :=
  let ctx0 := alistUpdate context st.data.context0
  match fillInputsLoop fuel st.data.name st.data.inputs ctx0 with
  | Option.none => Option.none
  | some (inputs1, ctx1, some e) =>
    let st1 : StepState := ⟨st.cls, {st.data with inputs := inputs1}⟩
    if dry_run then some (st1, ctx1, Except.error e)
    else some (st1, ctx1, Except.ok (failureResult st1.data st1.cls e))
  | some (inputs1, ctx1, Option.none) =>
    let d1 := {st.data with inputs := inputs1}
    match st.cls.process d1 dry_run with
    | Except.error e =>
      if dry_run then some (⟨st.cls, d1⟩, ctx1, Except.error e)
      else some (⟨st.cls, d1⟩, ctx1, Except.ok (failureResult d1 st.cls e))
    | Except.ok result =>
      let oc := applyOutputs d1.name result d1.outputs ctx1
      let d2 := {d1 with outputs := oc.1}
      let res : WorkflowStepResult :=
        { step_name := d1.name
          step_type := st.cls.className
          status := WorkflowStepStatus.SUCCESS
          status_reason := Option.none
          inputs := (inputs1.map Prod.snd).filter (fun p => p.value != PyVal.none)
          outputs := buildOutputs oc.1 result }
      some (⟨st.cls, d2⟩, oc.2, Except.ok res)

/-! ## `steps/dummy.py` and the registry -/

/-- `DummyStep.process` (`steps/dummy.py` lines 21-25): echoes the bound
`input` value as `output`; raises if it is `None`.  The `dry_run` flag is
ignored, as in the source. -/
def dummyProcess (d : StepData) (_dry_run : Bool) : Except PyErr (List (String × PyVal)) :=
  match alistGet d.inputs "input" with
  | Option.none => Except.error (PyErr.keyError "input")
  | some p =>
    if p.value = PyVal.none then Except.error (PyErr.valueError "Input is not provided")
    else Except.ok [("output", p.value)]

/-- `doc_agent.steps.dummy.DummyStep`. -/
def DummyStep : StepClass :=
  { className := "DummyStep"
    registered_names := ["dummy"]
    description := "This is a dummy step, which takes an input and returns the same as output." ++
      "This is useful for testing purposes."
    input_parameters := [{ name := "input", data_type := ParameterDataType.STRING }]
    output_parameters := [{ name := "output", data_type := ParameterDataType.STRING }]
    process := dummyProcess }

/-- `doc_agent.steps.registered_steps`, restricted to the embedded fragment:
the LLM step's live behaviour is an external OpenAI call and is outside the
embedding (the workflow-level theorems are parametric in the registry). -/
def registered_steps : List (String × StepClass) := [("dummy", DummyStep)]

/-! ## `workflowyaml.py`: the workflow definition and runner -/

/-- `doc_agent.workflowyaml.WorkflowStep`: the declared name, type and raw
inputs map, plus the `_step` slot holding the bound instance (set by
`init_input`, `None` while unbound). -/
structure WorkflowStep where
  name : String
  type : String
  description : Option String := Option.none
  inputs : List (String × PyVal) := []
  _step : Option StepState := Option.none

/-- `WorkflowStep.init_input` (`workflowyaml.py` lines 66-70): look the type
up in the registry and, when found, construct a fresh bound instance from
the raw inputs (construction may raise); when the type is unregistered the
`_step` slot is left untouched. -/
def WorkflowStep.init_input (reg : List (String × StepClass)) (s : WorkflowStep) :
    Except PyErr WorkflowStep :=
  match alistGet reg s.type with
  | Option.none => Except.ok s
  | some cls => (stepNew cls s.name s.inputs).map (fun st => {s with _step := some st})

/-- `WorkflowStep.run` (`workflowyaml.py` lines 72-80): raises `RuntimeError`
when no bound instance exists, otherwise delegates to `BaseStep.run`. -/
def WorkflowStep.run (fuel : Nat) (s : WorkflowStep) (ctx : Ctx) (dry_run : Bool) :
    Option (WorkflowStep × Ctx × Except PyErr WorkflowStepResult) :=
  match s._step with
  | Option.none =>
    some (s, ctx, Except.error (PyErr.runtimeError
      ("Step " ++ s.name ++ " with type " ++ s.type ++ " not found")))
  | some st =>
    (BaseStep.run fuel st ctx dry_run).map (fun r => ({s with _step := some r.1}, r.2.1, r.2.2))

/-- `doc_agent.workflowyaml.WorkflowDef`: the data fields the runner reads
(`layout_attributes` and the construction-time pydantic machinery are not
needed by any claim). -/
structure WorkflowDef where
  name : String
  description : Option String := Option.none
  inputs : List InputParameter := []
  steps : List WorkflowStep

/-- `WorkflowDef.validate_inputs` (`workflowyaml.py` lines 199-235): bind
each workflow input from the supplied dict (falling back to its default) and
collect permission / requiredness / type errors.  Returns the mutated input
parameters, the collected errors, and an exception if `value_validation`
raised (which aborts the loop). -/
def WorkflowDef.validate_inputs_aux (inputs : List (String × PyVal)) :
    List InputParameter → List InputParameter × List ValidationError × Option PyErr
  | [] => ([], [], Option.none)
  | p :: rest =>
    let v := match alistGet inputs p.name with
      | some w => w
      | Option.none => p.default
    let p1 : InputParameter := {p with value := v}
    if p1.user_permission ≠ InputPermissionLevel.READ_WRITE ∧ p1.value ≠ p1.default then
      let t := WorkflowDef.validate_inputs_aux inputs rest
      (p1 :: t.1,
       { loc := some p.name, msg := "Parameter is immutable",
         type := "immutable_workflow_input" } :: t.2.1, t.2.2)
    else if p1.value = PyVal.none ∧ p1.optional = false then
      let t := WorkflowDef.validate_inputs_aux inputs rest
      (p1 :: t.1,
       { loc := some p.name, msg := "Parameter is required",
         type := "missing_workflow_input" } :: t.2.1, t.2.2)
    else
      match Parameter.value_validation p1.toParameter with
      | Except.error e => (p1 :: rest, [], some e)
      | Except.ok verrs =>
        let t := WorkflowDef.validate_inputs_aux inputs rest
        let cur : List ValidationError :=
          if verrs ≠ [] then
            [{ loc := some p.name, msg := pyListRepr verrs, type := "invalid_workflow_input" }]
          else []
        (p1 :: t.1, cur ++ t.2.1, t.2.2)

/-- `WorkflowDef.validate_inputs` applied to a whole definition. -/
def WorkflowDef.validate_inputs (wd : WorkflowDef) (inputs : List (String × PyVal)) :
    List InputParameter × List ValidationError × Option PyErr :=
  WorkflowDef.validate_inputs_aux inputs wd.inputs

/-- The dry-run seeding loop of `WorkflowDef.run` (`workflowyaml.py` lines
294-297): write each declared input's fixed placeholder into the caller's
`run_inputs` dict, overwriting whatever was there.  The `assert` inside
`get_dry_run_value` aborts the loop, leaving the dict partially seeded. -/
def seedDryRun : List InputParameter → List (String × PyVal) →
    List (String × PyVal) × Option PyErr
  | [], ri => (ri, Option.none)
  | p :: rest, ri =>
    match Parameter.get_dry_run_value p.toParameter with
    | Except.error e => (ri, some e)
    | Except.ok v => seedDryRun rest (alistSet ri p.name v)

/-- The inline input-validation loop of `WorkflowDef.run` (`workflowyaml.py`
lines 300-311): bind each input from `run_inputs` (falling back to its
default), record a message for a missing required value and for
`value_validation` errors.  Unlike `validate_inputs` there is no permission
check here.  Returns the mutated parameters, the error messages, and an
exception if `value_validation` raised. -/
def runValidatePhase (ri : List (String × PyVal)) :
    List InputParameter → List InputParameter × List String × Option PyErr
  | [] => ([], [], Option.none)
  | p :: rest =>
    let v := match alistGet ri p.name with
      | some w => w
      | Option.none => p.default
    let p1 : InputParameter := {p with value := v}
    let req : List String :=
      if p1.value = PyVal.none ∧ p1.optional = false then
        ["Parameter " ++ p.name ++ " is required"]
      else []
    match Parameter.value_validation p1.toParameter with
    | Except.error e => (p1 :: rest, [], some e)
    | Except.ok verrs =>
      let inv : List String :=
        if verrs ≠ [] then
          ["Invalid input value for " ++ p.name ++ ": " ++ pyListRepr verrs]
        else []
      let t := runValidatePhase ri rest
      (p1 :: t.1, req ++ inv ++ t.2.1, t.2.2)

/-- Outcome of the step-execution loop of `WorkflowDef.run`: the mutated
steps, the final context, the collected results, the running status, and an
exception if one propagated (in which case the results are discarded by the
caller, as a Python exception would discard them). -/
structure StepsOutcome where
  steps : List WorkflowStep
  ctx : Ctx
  results : List WorkflowStepResult
  status : WorkflowRunStatus
  exc : Option PyErr

/-- The step-execution loop of `WorkflowDef.run` (`workflowyaml.py` lines
332-343): for each step in declaration order, re-initialize its bound
instance via `init_input`, run it, collect the result, and flip the running
status to FAILURE on a failing step.  An exception from `init_input` or from
a (dry-run) step aborts the loop. -/
def runSteps (reg : List (String × StepClass)) (fuel : Nat) (dry_run : Bool) :
    List WorkflowStep → Ctx → WorkflowRunStatus → Option StepsOutcome
  | [], ctx, status => some ⟨[], ctx, [], status, Option.none⟩
  | s :: rest, ctx, status =>
    match WorkflowStep.init_input reg s with
    | Except.error e => some ⟨s :: rest, ctx, [], status, some e⟩
    | Except.ok s1 =>
      match WorkflowStep.run fuel s1 ctx dry_run with
      | Option.none => Option.none
      | some (s2, ctx2, Except.error e) => some ⟨s2 :: rest, ctx2, [], status, some e⟩
      | some (s2, ctx2, Except.ok r) =>
        (runSteps reg fuel dry_run rest ctx2
            (if r.status = WorkflowStepStatus.FAILURE then WorkflowRunStatus.FAILURE
             else status)).map
          (fun t => ⟨s2 :: t.steps, t.ctx, r :: t.results, t.status, t.exc⟩)

/-- Outcome of `WorkflowDef.run`: the mutated definition, the final state of
the caller's `run_inputs` dict (which dry-run mode mutates in place), and
the run result or propagated exception. -/
structure RunOutcome where
  wd : WorkflowDef
  run_inputs : List (String × PyVal)
  result : Except PyErr WorkflowRunResult

/-- The synthetic FAILURE result returned when input binding fails
(`workflowyaml.py` lines 312-327). -/
def inputFailureResult (inputErrors : List String) : WorkflowRunResult :=
  { status := WorkflowRunStatus.FAILURE
    result := [{ step_name := "input", step_type := "input",
                 status := WorkflowStepStatus.FAILURE,
                 status_reason := some (String.intercalate "; " inputErrors),
                 inputs := [], outputs := [] }] }

/-- The body of `WorkflowDef.run` after the optional dry-run seeding
(`workflowyaml.py` lines 299-344): validate and bind the workflow inputs
(short-circuiting to a synthetic FAILURE on any input error), seed the
context with `"input.<name>"` entries, and execute the steps in declaration
order. -/
def runCore (reg : List (String × StepClass)) (fuel : Nat) (wd : WorkflowDef)
    (ri : List (String × PyVal)) (dry_run : Bool) : Option RunOutcome :=
  let ph := runValidatePhase ri wd.inputs
  let wd1 : WorkflowDef := {wd with inputs := ph.1}
  match ph.2.2 with
  | some e => some ⟨wd1, ri, Except.error e⟩
  | Option.none =>
    if ph.2.1 ≠ [] then
      some ⟨wd1, ri, Except.ok (inputFailureResult ph.2.1)⟩
    else
      let ctx0 := ph.1.foldl (fun c p => alistSet c ("input." ++ p.name) p.value) []
      match runSteps reg fuel dry_run wd1.steps ctx0 WorkflowRunStatus.SUCCESS with
      | Option.none => Option.none
      | some o =>
        match o.exc with
        | some e => some ⟨{wd1 with steps := o.steps}, ri, Except.error e⟩
        | Option.none =>
          some ⟨{wd1 with steps := o.steps}, ri,
            Except.ok { status := o.status, result := o.results }⟩

/-- `WorkflowDef.run` (`workflowyaml.py` lines 283-344): default the inputs
dict, seed it with placeholders in dry-run mode, then run the validation
and execution body (`runCore`). -/
def WorkflowDef.run (reg : List (String × StepClass)) (fuel : Nat) (wd : WorkflowDef)
    (run_inputs : Option (List (String × PyVal))) (dry_run : Bool) : Option RunOutcome :=
  let ri0 := run_inputs.getD []
  let seeded := if dry_run then seedDryRun wd.inputs ri0 else (ri0, Option.none)
  match seeded.2 with
  | some e => some ⟨wd, seeded.1, Except.error e⟩
  | Option.none => runCore reg fuel wd seeded.1 dry_run

/-! ## Observables and concrete workflows used by the theorems -/

/-- Decidable observable of a run outcome: the run status and, per step
result, its name, status, reason and named output values. -/
def runObs (o : Option RunOutcome) :
    Option (Except PyErr (WorkflowRunStatus ×
      List (String × WorkflowStepStatus × Option String × List (String × PyVal)))) :=
  o.map (fun r => r.result.map (fun rr =>
    (rr.status, rr.result.map (fun sr =>
      (sr.step_name, sr.status, sr.status_reason, sr.outputs.map (fun p => (p.name, p.value)))))))

/-- The one-step `dummy` workflow of the round-trip property. -/
def helloWorkflow : WorkflowDef :=
  { name := "wf"
    steps := [{ name := "step1", type := "dummy",
                inputs := [("input", PyVal.str "Hello, World!")] }] }

/-- A workflow with a READ_ONLY input (default `"x"`) feeding a dummy step. -/
def readOnlyWorkflow : WorkflowDef :=
  { name := "wf"
    inputs := [{ name := "x_input", data_type := ParameterDataType.STRING,
                 default := PyVal.str "x",
                 user_permission := InputPermissionLevel.READ_ONLY }]
    steps := [{ name := "step1", type := "dummy",
                inputs := [("input", PyVal.str "@{input.x_input}")] }] }

/-- A workflow with one STRING input (used for the dry-run seeding claim). -/
def seedWorkflow : WorkflowDef :=
  { name := "wf"
    inputs := [{ name := "s", data_type := ParameterDataType.STRING,
                 default := PyVal.str "d" }]
    steps := [] }

/-- A concrete NUMBER parameter bound to the string `"3"`. -/
def c5param : Parameter :=
  { name := "n", data_type := ParameterDataType.NUMBER, value := PyVal.str "3" }

/-- A bound dummy-step instance whose `input` references a key that no
context will contain, so reference resolution raises. -/
def refFailStep : StepState :=
  ⟨DummyStep,
   { name := "s1"
     inputs := [("input", { name := "input", data_type := ParameterDataType.STRING,
                            value := PyVal.str "@{missing.key}" })]
     outputs := [("output", { name := "output", data_type := ParameterDataType.STRING })] }⟩

/-- The reference error `refFailStep` raises against an empty context. -/
def refFailErr : PyErr := PyErr.valueReferenceError "s1" "missing.key" []

/-- A bound dummy-step instance with no `input` value, so `process` raises. -/
def procFailStep : StepState :=
  ⟨DummyStep,
   { name := "s2"
     inputs := [("input", { name := "input", data_type := ParameterDataType.STRING })]
     outputs := [("output", { name := "output", data_type := ParameterDataType.STRING })] }⟩

/-- The declared (unbound) workflow step wrapping `refFailStep`. -/
def refFailWStep : WorkflowStep :=
  { name := "s1", type := "dummy", inputs := [("input", PyVal.str "@{missing.key}")] }

/-- `refFailWStep` after `init_input` against the registry. -/
def refFailWStepInit : WorkflowStep :=
  { refFailWStep with _step := some refFailStep }

/-- Claim-side statement of the `resolvedValue` contract, following the
spec's words: the value when set, otherwise the default; coerced for
STRING (stringify), NUMBER (parse to float; an absent value passes through)
and BOOLEAN (truthy-cast); every other data type passes through
unconverted. -/
def resolvedValueSpec (p : Parameter) : Except PyErr PyVal :=
  let r := if p.value = PyVal.none then p.default else p.value
  match p.data_type with
  | ParameterDataType.STRING => Except.ok (PyVal.str (pyStr r))
  | ParameterDataType.NUMBER => if r = PyVal.none then Except.ok PyVal.none else pyFloat r
  | ParameterDataType.BOOLEAN => Except.ok (PyVal.bool (pyTruthy r))
  | _ => Except.ok r

/-- A run of space characters (the only whitespace the token regex's
`[\ ]*` admits). -/
def isSpaceRun (w : List Char) : Prop := ∀ c ∈ w, c = ' '

/-- From the spec's words: a run of (arbitrary) whitespace characters. -/
def isWsRun (w : List Char) : Prop := ∀ c ∈ w, c.isWhitespace

/-- A nonempty `[a-zA-Z0-9_]+` identifier. -/
def isIdentStr (n : List Char) : Prop := n ≠ [] ∧ ∀ c ∈ n, isIdentChar c

/-- The claim's token shape: `@\x7b`, optional internal whitespace runs
around the two names, a dot, and `\x7d`. -/
def refTokenChars (w1 st w2 w3 pn w4 : List Char) : List Char :=
  '@' :: '{' :: (w1 ++ st ++ w2 ++ '.' :: (w3 ++ pn ++ w4 ++ ['}']))

/-- Claim-side recognizer, whitespace read as space characters: some
substring of `l` is a reference token. -/
def hasRefTokenSp (l : List Char) : Prop :=
  ∃ pre w1 st w2 w3 pn w4 post,
    isSpaceRun w1 ∧ isSpaceRun w2 ∧ isSpaceRun w3 ∧ isSpaceRun w4
    ∧ isIdentStr st ∧ isIdentStr pn
    ∧ l = pre ++ refTokenChars w1 st w2 w3 pn w4 ++ post

/-- Claim-side recognizer, whitespace read literally (`\s`-like): some
substring of `l` is a reference token with arbitrary whitespace runs. -/
def hasRefTokenWs (l : List Char) : Prop :=
  ∃ pre w1 st w2 w3 pn w4 post,
    isWsRun w1 ∧ isWsRun w2 ∧ isWsRun w3 ∧ isWsRun w4
    ∧ isIdentStr st ∧ isIdentStr pn
    ∧ l = pre ++ refTokenChars w1 st w2 w3 pn w4 ++ post

/-- The immutable ("raw") part of a declared workflow input: everything but
the mutable bound `value` slot. -/
def InputParameter.erase (p : InputParameter) : InputParameter :=
  {p with value := PyVal.none}

/-- The immutable ("raw") part of a declared workflow step: everything but
the mutable `_step` bound-instance slot. -/
def WorkflowStep.erase (s : WorkflowStep) : WorkflowStep :=
  {s with _step := Option.none}

/-- The `run_inputs` dict as it stands after the optional dry-run seeding
step of `WorkflowDef.run`. -/
def runSeededInputs (wd : WorkflowDef) (ins : Option (List (String × PyVal))) (dry : Bool) :
    List (String × PyVal) :=
  if dry then (seedDryRun wd.inputs (ins.getD [])).1 else ins.getD []

/-- The initial context `WorkflowDef.run` seeds from the bound inputs. -/
def runSeedContext (wd : WorkflowDef) (ins : Option (List (String × PyVal))) (dry : Bool) : Ctx :=
  (runValidatePhase (runSeededInputs wd ins dry) wd.inputs).1.foldl
    (fun c p => alistSet c ("input." ++ p.name) p.value) []

/-- The `input` parameter of the dummy step as bound by the hello run. -/
def helloInParam : Parameter :=
  { name := "input", data_type := ParameterDataType.STRING, value := PyVal.str "Hello, World!" }

/-- The `output` parameter of the dummy step as bound by the hello run. -/
def helloOutParam : Parameter :=
  { name := "output", data_type := ParameterDataType.STRING, value := PyVal.str "Hello, World!" }

/-- The bound dummy instance a live run of `helloWorkflow` stores into its
step. -/
def helloStepState : StepState :=
  ⟨DummyStep,
   { name := "step1", context0 := [],
     inputs := [("input", helloInParam)],
     outputs := [("output", helloOutParam)] }⟩

/-- The complete outcome of a live run of `helloWorkflow`: the mutated
definition (step bound to `helloStepState`), the untouched `run_inputs`,
and the SUCCESS result echoing the input. -/
def helloRunOutcome : RunOutcome :=
  { wd := { name := "wf", description := Option.none, inputs := [],
            steps := [{ name := "step1", type := "dummy", description := Option.none,
                        inputs := [("input", PyVal.str "Hello, World!")],
                        _step := some helloStepState }] }
    run_inputs := []
    result := Except.ok
      { status := WorkflowRunStatus.SUCCESS
        result := [{ step_name := "step1", step_type := "DummyStep",
                     status := WorkflowStepStatus.SUCCESS,
                     status_reason := Option.none,
                     inputs := [helloInParam],
                     outputs := [helloOutParam] }] } }

/-! ## Helper lemmas -/

theorem alistGet_set_self {α : Type} (m : List (String × α)) (k : String) (v : α) :
    alistGet (alistSet m k v) k = some v := by
  induction m with
  | nil => simp [alistSet, alistGet]
  | cons h t ih =>
    by_cases hk : h.1 = k
    · simp [alistSet, hk, alistGet]
    · simpa [alistSet, hk, alistGet] using ih

theorem alistGet_set_ne {α : Type} (m : List (String × α)) (k k' : String) (v : α)
    (h : k' ≠ k) : alistGet (alistSet m k' v) k = alistGet m k := by
  induction m with
  | nil => simp [alistSet, alistGet, h]
  | cons hd t ih =>
    by_cases hk : hd.1 = k'
    · simp [alistSet, hk, alistGet, h, Ne.symm h]
    · by_cases hk2 : hd.1 = k <;> simp [alistSet, hk, alistGet, hk2, Ne.symm h, ih]

theorem seedDryRun_preserve (inputs : List InputParameter) (m : List (String × PyVal))
    (k : String)
    (hok : ∀ q ∈ inputs, ∃ w, Parameter.get_dry_run_value q.toParameter = Except.ok w)
    (hk : k ∉ inputs.map (fun q => q.name)) :
    alistGet (seedDryRun inputs m).1 k = alistGet m k := by
  induction inputs generalizing m with
  | nil => simp [seedDryRun]
  | cons p rest ih =>
    obtain ⟨w, hw⟩ := hok p (by simp)
    simp only [List.map_cons, List.mem_cons, not_or] at hk
    rw [seedDryRun, hw]
    rw [ih (alistSet m p.name w) (fun q hq => hok q (List.mem_cons_of_mem _ hq)) hk.2]
    exact alistGet_set_ne m k p.name w (fun h => hk.1 h.symm)

theorem seedDryRun_lookup (inputs : List InputParameter) (ri : List (String × PyVal))
    (p : InputParameter) (v : PyVal)
    (hnd : (inputs.map (fun q => q.name)).Nodup)
    (hok : ∀ q ∈ inputs, ∃ w, Parameter.get_dry_run_value q.toParameter = Except.ok w)
    (hp : p ∈ inputs)
    (hv : Parameter.get_dry_run_value p.toParameter = Except.ok v) :
    alistGet (seedDryRun inputs ri).1 p.name = some v := by
  induction inputs generalizing ri with
  | nil => cases hp
  | cons q rest ih =>
    simp only [List.map_cons, List.nodup_cons] at hnd
    rcases List.mem_cons.mp hp with rfl | hmem
    · rw [seedDryRun, hv]
      rw [seedDryRun_preserve rest (alistSet ri p.name v) p.name
        (fun q hq => hok q (List.mem_cons_of_mem _ hq)) hnd.1]
      exact alistGet_set_self ri p.name v
    · obtain ⟨w, hw⟩ := hok q (by simp)
      rw [seedDryRun, hw]
      exact ih (alistSet ri q.name w) hnd.2 (fun r hr => hok r (List.mem_cons_of_mem _ hr)) hmem

theorem runCore_run_inputs (reg : List (String × StepClass)) (fuel : Nat)
    (wd : WorkflowDef) (ri : List (String × PyVal)) (dry : Bool) (o : RunOutcome)
    (h : runCore reg fuel wd ri dry = some o) : o.run_inputs = ri := by
  unfold runCore at h
  dsimp only at h
  rcases hexc : (runValidatePhase ri wd.inputs).2.2 with _ | e2
  · rw [hexc] at h
    simp only at h
    by_cases herr : (runValidatePhase ri wd.inputs).2.1 = []
    · rw [if_neg (by simp [herr])] at h
      rcases hsteps : runSteps reg fuel dry wd.steps
          ((runValidatePhase ri wd.inputs).1.foldl
            (fun c p => alistSet c ("input." ++ p.name) p.value) [])
          WorkflowRunStatus.SUCCESS with _ | o2
      · rw [hsteps] at h; cases h
      · rw [hsteps] at h
        obtain ⟨sts, cx, rs, stt, exc⟩ := o2
        cases exc <;> simp only [Option.some.injEq] at h <;> rw [← h]
    · rw [if_pos (by simp [herr])] at h
      simp only [Option.some.injEq] at h
      rw [← h]
  · rw [hexc] at h
    simp only [Option.some.injEq] at h
    rw [← h]

theorem run_dry_run_inputs (reg : List (String × StepClass)) (fuel : Nat)
    (wd : WorkflowDef) (ri : List (String × PyVal)) (o : RunOutcome)
    (hrun : WorkflowDef.run reg fuel wd (some ri) true = some o) :
    o.run_inputs = (seedDryRun wd.inputs ri).1 := by
  unfold WorkflowDef.run at hrun
  simp only [Option.getD_some, if_pos] at hrun
  rcases hseed : (seedDryRun wd.inputs ri).2 with _ | e
  · rw [hseed] at hrun
    simp only at hrun
    exact runCore_run_inputs reg fuel wd _ true o hrun
  · rw [hseed] at hrun
    simp only [Option.some.injEq] at hrun
    rw [← hrun]

theorem stepNew_name (cls : StepClass) (nm : String) (kwargs : List (String × PyVal))
    (st : StepState) (h : stepNew cls nm kwargs = Except.ok st) : st.data.name = nm := by
  rw [stepNew] at h
  split at h
  · cases h
  · split at h
    · cases h
    · cases h; rfl

theorem baseRun_result_name (fuel : Nat) (st : StepState) (ctx : Ctx) (dry : Bool)
    (st' : StepState) (ctx' : Ctx) (r : WorkflowStepResult)
    (h : BaseStep.run fuel st ctx dry = some (st', ctx', Except.ok r)) :
    r.step_name = st.data.name := by
  rw [BaseStep.run] at h
  rcases hfill : fillInputsLoop fuel st.data.name st.data.inputs
      (alistUpdate ctx st.data.context0) with _ | ⟨inputs1, ctx1, exc⟩
  · rw [hfill] at h; cases h
  · rw [hfill] at h
    cases exc with
    | some e =>
      cases dry with
      | false =>
        simp only [Bool.false_eq_true, if_false, Option.some.injEq] at h
        have := congrArg (fun t => t.2.2) h
        simp only at this
        have hr : Except.ok (failureResult {st.data with inputs := inputs1} st.cls e)
            = Except.ok r := this
        cases hr
        rfl
      | true => simp at h
    | none =>
      simp only at h
      rcases hproc : st.cls.process {st.data with inputs := inputs1} dry with e | res
      · rw [hproc] at h
        cases dry with
        | false =>
          simp only [Bool.false_eq_true, if_false, Option.some.injEq] at h
          have := congrArg (fun t => t.2.2) h
          simp only at this
          have hr : Except.ok (failureResult {st.data with inputs := inputs1} st.cls e)
              = Except.ok r := this
          cases hr
          rfl
        | true => simp at h
      · rw [hproc] at h
        simp only [Option.some.injEq] at h
        have := congrArg (fun t => t.2.2) h
        simp only at this
        cases this
        rfl

theorem runSteps_status_iff (reg : List (String × StepClass)) (fuel : Nat) (dry : Bool) :
    ∀ (steps : List WorkflowStep) (ctx : Ctx) (status : WorkflowRunStatus) (o : StepsOutcome),
      runSteps reg fuel dry steps ctx status = some o → o.exc = Option.none →
      (o.status = WorkflowRunStatus.FAILURE ↔
        (status = WorkflowRunStatus.FAILURE
          ∨ ∃ r ∈ o.results, r.status = WorkflowStepStatus.FAILURE)) := by
  intro steps
  induction steps with
  | nil =>
    intro ctx status o h hexc
    rw [runSteps] at h
    simp only [Option.some.injEq] at h
    rw [← h]
    simp
  | cons s rest ih =>
    intro ctx status o h hexc
    obtain ⟨osteps, octx, ores, ostat, oexc⟩ := o
    rw [runSteps] at h
    split at h
    · simp only [Option.some.injEq, StepsOutcome.mk.injEq] at h
      rw [← h.2.2.2.2] at hexc
      cases hexc
    · split at h
      · cases h
      · simp only [Option.some.injEq, StepsOutcome.mk.injEq] at h
        rw [← h.2.2.2.2] at hexc
        cases hexc
      · rename_i s1 heq s2 ctx2 r heq2
        rcases ht : runSteps reg fuel dry rest ctx2
            (if r.status = WorkflowStepStatus.FAILURE then WorkflowRunStatus.FAILURE
             else status) with _ | t
        · rw [ht] at h; cases h
        · rw [ht] at h
          simp only [Option.map_some', Option.some.injEq, StepsOutcome.mk.injEq] at h
          obtain ⟨h1, h2, h3, h4, h5⟩ := h
          rw [← h5] at hexc
          rw [← h4, ← h3]
          have hiff := ih ctx2 _ t ht hexc
          by_cases hr : r.status = WorkflowStepStatus.FAILURE
          · rw [if_pos hr] at hiff
            rw [hiff]
            constructor
            · intro _; exact Or.inr ⟨r, List.mem_cons_self r t.results, hr⟩
            · intro _; exact Or.inl rfl
          · rw [if_neg hr] at hiff
            rw [hiff]
            constructor
            · rintro (hs | ⟨x, hx, hxf⟩)
              · exact Or.inl hs
              · exact Or.inr ⟨x, by simp [hx], hxf⟩
            · rintro (hs | ⟨x, hx, hxf⟩)
              · exact Or.inl hs
              · rcases List.mem_cons.mp hx with rfl | hx2
                · exact absurd hxf hr
                · exact Or.inr ⟨x, hx2, hxf⟩

theorem runSteps_status_cases (reg : List (String × StepClass)) (fuel : Nat) (dry : Bool) :
    ∀ (steps : List WorkflowStep) (ctx : Ctx) (status : WorkflowRunStatus) (o : StepsOutcome),
      runSteps reg fuel dry steps ctx status = some o →
      o.status = status ∨ o.status = WorkflowRunStatus.FAILURE := by
  intro steps
  induction steps with
  | nil =>
    intro ctx status o h
    rw [runSteps] at h
    simp only [Option.some.injEq] at h
    rw [← h]
    exact Or.inl rfl
  | cons s rest ih =>
    intro ctx status o h
    obtain ⟨osteps, octx, ores, ostat, oexc⟩ := o
    rw [runSteps] at h
    split at h
    · simp only [Option.some.injEq, StepsOutcome.mk.injEq] at h
      rw [← h.2.2.2.1]
      exact Or.inl rfl
    · split at h
      · cases h
      · simp only [Option.some.injEq, StepsOutcome.mk.injEq] at h
        rw [← h.2.2.2.1]
        exact Or.inl rfl
      · rename_i s1 heq s2 ctx2 r heq2
        rcases ht : runSteps reg fuel dry rest ctx2
            (if r.status = WorkflowStepStatus.FAILURE then WorkflowRunStatus.FAILURE
             else status) with _ | t
        · rw [ht] at h; cases h
        · rw [ht] at h
          simp only [Option.map_some', Option.some.injEq, StepsOutcome.mk.injEq] at h
          obtain ⟨h1, h2, h3, h4, h5⟩ := h
          rw [← h4]
          have hcases := ih ctx2 _ t ht
          by_cases hr : r.status = WorkflowStepStatus.FAILURE
          · rw [if_pos hr] at hcases
            rcases hcases with hc | hc
            · exact Or.inr hc
            · exact Or.inr hc
          · rw [if_neg hr] at hcases
            exact hcases

theorem runSteps_result_names (reg : List (String × StepClass)) (fuel : Nat) (dry : Bool) :
    ∀ (steps : List WorkflowStep) (ctx : Ctx) (status : WorkflowRunStatus) (o : StepsOutcome),
      (∀ s ∈ steps, (alistGet reg s.type).isSome) →
      runSteps reg fuel dry steps ctx status = some o → o.exc = Option.none →
      o.results.map (fun r => r.step_name) = steps.map (fun s => s.name) := by
  intro steps
  induction steps with
  | nil =>
    intro ctx status o _ h hexc
    rw [runSteps] at h
    simp only [Option.some.injEq] at h
    rw [← h]
    simp
  | cons s rest ih =>
    intro ctx status o hreg h hexc
    obtain ⟨osteps, octx, ores, ostat, oexc⟩ := o
    rw [runSteps] at h
    split at h
    · simp only [Option.some.injEq, StepsOutcome.mk.injEq] at h
      rw [← h.2.2.2.2] at hexc
      cases hexc
    · split at h
      · cases h
      · simp only [Option.some.injEq, StepsOutcome.mk.injEq] at h
        rw [← h.2.2.2.2] at hexc
        cases hexc
      · rename_i x1 s1 hinit x2 s2 ctx2 r hrun
        have hcls : ∃ cls, alistGet reg s.type = some cls := by
          have := hreg s (by simp)
          rcases hc : alistGet reg s.type with _ | cls
          · rw [hc] at this; cases this
          · exact ⟨cls, rfl⟩
        obtain ⟨cls, hc⟩ := hcls
        have hs1 : ∃ st, stepNew cls s.name s.inputs = Except.ok st
            ∧ s1 = {s with _step := some st} := by
          rw [WorkflowStep.init_input, hc] at hinit
          dsimp only at hinit
          rcases hn : stepNew cls s.name s.inputs with e | st
          · rw [hn] at hinit; cases hinit
          · rw [hn] at hinit
            simp only [Except.map, Except.ok.injEq] at hinit
            exact ⟨st, rfl, hinit.symm⟩
        obtain ⟨st, hnew, hs1eq⟩ := hs1
        have hname : r.step_name = s.name := by
          rw [hs1eq, WorkflowStep.run] at hrun
          dsimp only at hrun
          rcases hb : BaseStep.run fuel st ctx dry with _ | ⟨st2, ctx2b, res2⟩
          · rw [hb] at hrun; cases hrun
          · rw [hb] at hrun
            simp only [Option.map_some', Option.some.injEq] at hrun
            have hres2 : res2 = Except.ok r := congrArg (fun t => t.2.2) hrun
            rw [hres2] at hb
            have := baseRun_result_name fuel st ctx dry st2 ctx2b r hb
            rw [this]
            exact stepNew_name cls s.name s.inputs st hnew
        rcases ht : runSteps reg fuel dry rest ctx2
            (if r.status = WorkflowStepStatus.FAILURE then WorkflowRunStatus.FAILURE
             else status) with _ | t
        · rw [ht] at h; cases h
        · rw [ht] at h
          simp only [Option.map_some', Option.some.injEq, StepsOutcome.mk.injEq] at h
          obtain ⟨h1, h2, h3, h4, h5⟩ := h
          rw [← h5] at hexc
          rw [← h3]
          simp only [List.map_cons]
          rw [hname, ih ctx2 _ t (fun x hx => hreg x (List.mem_cons_of_mem _ hx)) ht hexc]

/-- The three possible shapes of a completed `runCore` call: a propagated
exception, the synthetic input-failure result, or the aggregate built from
a completed step loop. -/
theorem runCore_shape (reg : List (String × StepClass)) (fuel : Nat) (wd : WorkflowDef)
    (ri : List (String × PyVal)) (dry : Bool) (o : RunOutcome)
    (h : runCore reg fuel wd ri dry = some o) :
    (∃ e, o.result = Except.error e)
    ∨ ((runValidatePhase ri wd.inputs).2.1 ≠ []
        ∧ o.result = Except.ok (inputFailureResult (runValidatePhase ri wd.inputs).2.1))
    ∨ ((runValidatePhase ri wd.inputs).2.1 = []
        ∧ ∃ so : StepsOutcome,
          runSteps reg fuel dry wd.steps
            ((runValidatePhase ri wd.inputs).1.foldl
              (fun c p => alistSet c ("input." ++ p.name) p.value) [])
            WorkflowRunStatus.SUCCESS = some so
          ∧ so.exc = Option.none
          ∧ o.result = Except.ok { status := so.status, result := so.results }) := by
  unfold runCore at h
  dsimp only at h
  rcases hexc : (runValidatePhase ri wd.inputs).2.2 with _ | e2
  · rw [hexc] at h
    simp only at h
    by_cases herr : (runValidatePhase ri wd.inputs).2.1 = []
    · rw [if_neg (by simp [herr])] at h
      rcases hsteps : runSteps reg fuel dry wd.steps
          ((runValidatePhase ri wd.inputs).1.foldl
            (fun c p => alistSet c ("input." ++ p.name) p.value) [])
          WorkflowRunStatus.SUCCESS with _ | so
      · rw [hsteps] at h
        cases h
      · rw [hsteps] at h
        obtain ⟨sts, cx, rs, stt, exc⟩ := so
        cases exc with
        | some e3 =>
          left
          simp only [Option.some.injEq] at h
          exact ⟨e3, by rw [← h]⟩
        | none =>
          right; right
          refine ⟨herr, ⟨⟨sts, cx, rs, stt, Option.none⟩, ?_, ?_, ?_⟩⟩
          · exact hsteps ▸ rfl
          · rfl
          · simp only [Option.some.injEq] at h
            rw [← h]
    · rw [if_pos (by simp [herr])] at h
      simp only [Option.some.injEq] at h
      right; left
      exact ⟨herr, by rw [← h]⟩
  · rw [hexc] at h
    simp only [Option.some.injEq] at h
    exact Or.inl ⟨e2, by rw [← h]⟩

/-- The three possible shapes of a completed `WorkflowDef.run` call: a
propagated exception, the synthetic input-failure result, or the aggregate
built from a completed step loop. -/
theorem run_shape (reg : List (String × StepClass)) (fuel : Nat) (wd : WorkflowDef)
    (ins : Option (List (String × PyVal))) (dry : Bool) (o : RunOutcome)
    (hrun : WorkflowDef.run reg fuel wd ins dry = some o) :
    (∃ e, o.result = Except.error e)
    ∨ ((runValidatePhase (runSeededInputs wd ins dry) wd.inputs).2.1 ≠ []
        ∧ o.result = Except.ok (inputFailureResult
            (runValidatePhase (runSeededInputs wd ins dry) wd.inputs).2.1))
    ∨ ((runValidatePhase (runSeededInputs wd ins dry) wd.inputs).2.1 = []
        ∧ ∃ so : StepsOutcome,
          runSteps reg fuel dry wd.steps (runSeedContext wd ins dry)
            WorkflowRunStatus.SUCCESS = some so
          ∧ so.exc = Option.none
          ∧ o.result = Except.ok { status := so.status, result := so.results }) := by
  unfold WorkflowDef.run at hrun
  dsimp only at hrun
  rcases hseed : (if dry then seedDryRun wd.inputs (ins.getD [])
      else (ins.getD [], Option.none)).2 with _ | e
  · rw [hseed] at hrun
    simp only at hrun
    have hseq : (if dry then seedDryRun wd.inputs (ins.getD [])
        else (ins.getD [], Option.none)).1 = runSeededInputs wd ins dry := by
      cases dry <;> simp [runSeededInputs]
    rw [hseq] at hrun
    have hc := runCore_shape reg fuel wd (runSeededInputs wd ins dry) dry o hrun
    rw [show (runValidatePhase (runSeededInputs wd ins dry) wd.inputs).1.foldl
        (fun c p => alistSet c ("input." ++ p.name) p.value) []
        = runSeedContext wd ins dry from rfl] at hc
    exact hc
  · rw [hseed] at hrun
    simp only [Option.some.injEq] at hrun
    exact Or.inl ⟨e, by rw [← hrun]⟩

theorem dropWhile_all {α : Type} {p : α → Bool} {w l : List α}
    (h : ∀ c ∈ w, p c = true) : (w ++ l).dropWhile p = l.dropWhile p := by
  induction w with
  | nil => rfl
  | cons a t ih =>
    simp only [List.cons_append, List.dropWhile_cons, h a (by simp), if_true]
    exact ih (fun c hc => h c (by simp [hc]))

theorem dropWhile_head_false {α : Type} {p : α → Bool} {l : List α}
    (h : ∀ c, l.head? = some c → p c = false) : l.dropWhile p = l := by
  cases l with
  | nil => rfl
  | cons a t => simp [List.dropWhile_cons, h a rfl]

theorem takeWhile_stop {α : Type} {p : α → Bool} {n rest : List α}
    (hn : ∀ c ∈ n, p c = true) (hr : ∀ c, rest.head? = some c → p c = false) :
    (n ++ rest).takeWhile p = n ∧ (n ++ rest).dropWhile p = rest := by
  induction n with
  | nil =>
    refine ⟨?_, dropWhile_head_false hr⟩
    cases rest with
    | nil => rfl
    | cons a t => simp [List.takeWhile_cons, hr a rfl]
  | cons a t ih =>
    have h1 : p a = true := hn a (by simp)
    have ihr := ih (fun c hc => hn c (by simp [hc]))
    simp only [List.cons_append, List.takeWhile_cons, List.dropWhile_cons, h1, if_true]
    exact ⟨by rw [ihr.1], ihr.2⟩

theorem isIdentChar_not_space {c : Char} (h : isIdentChar c = true) : (c == ' ') = false := by
  by_contra hc
  rw [Bool.not_eq_false, beq_iff_eq] at hc
  rw [hc] at h
  cases h

theorem space_not_identChar {c : Char} (h : (c == ' ') = true) : isIdentChar c = false := by
  rw [beq_iff_eq] at h
  rw [h]
  rfl

theorem spaceRun_beq {w : List Char} (hw : isSpaceRun w) : ∀ c ∈ w, (c == ' ') = true := by
  intro c hc
  rw [beq_iff_eq]
  exact hw c hc

theorem head_not_ident {w : List Char} (hw : isSpaceRun w) {c0 : Char}
    (h0 : isIdentChar c0 = false) (T : List Char) :
    ∀ c, (w ++ c0 :: T).head? = some c → isIdentChar c = false := by
  intro c hc
  cases w with
  | nil =>
    simp only [List.nil_append, List.head?_cons, Option.some.injEq] at hc
    rw [hc] at h0
    exact h0
  | cons a t =>
    simp only [List.cons_append, List.head?_cons, Option.some.injEq] at hc
    rw [← hc]
    rw [hw a (by simp)]
    rfl

theorem drop_spaces_to {w : List Char} (hw : isSpaceRun w) {c0 : Char}
    (h0 : (c0 == ' ') = false) (T : List Char) :
    (w ++ c0 :: T).dropWhile (· == ' ') = c0 :: T := by
  rw [dropWhile_all (spaceRun_beq hw)]
  exact dropWhile_head_false (fun c hc => by
    simp only [List.head?_cons, Option.some.injEq] at hc
    rw [hc] at h0
    exact h0)

theorem identStr_head_not_space {n : List Char} (hn : isIdentStr n) (T : List Char) :
    (n ++ T).dropWhile (· == ' ') = n ++ T := by
  rcases n with _ | ⟨c, n2⟩
  · exact absurd rfl hn.1
  · exact dropWhile_head_false (fun d hd => by
      simp only [List.cons_append, List.head?_cons, Option.some.injEq] at hd
      rw [← hd]
      exact isIdentChar_not_space (hn.2 c (by simp)))

theorem identStr_bool {n : List Char} (hn : isIdentStr n) : ∀ c ∈ n, isIdentChar c = true :=
  hn.2

/-- Soundness of one match attempt: a successful `tryMatchRef` decomposes
its input as a reference token followed by the remainder. -/
theorem tryMatchRef_decomp {l st pn rest : List Char}
    (h : tryMatchRef l = some (st, pn, rest)) :
    ∃ w1 w2 w3 w4, isSpaceRun w1 ∧ isSpaceRun w2 ∧ isSpaceRun w3 ∧ isSpaceRun w4
      ∧ isIdentStr st ∧ isIdentStr pn
      ∧ l = refTokenChars w1 st w2 w3 pn w4 ++ rest := by
  unfold tryMatchRef at h
  split at h
  case h_2 => cases h
  case h_1 c1 c2 r0 =>
    dsimp only at h
    split at h
    case isFalse => cases h
    case isTrue hc12 =>
      obtain ⟨rfl, rfl⟩ := hc12
      split at h
      case isTrue => cases h
      case isFalse hne =>
        split at h
        case h_2 => cases h
        case h_1 c3 r4 heq4 =>
          split at h
          case isFalse => cases h
          case isTrue hc3 =>
            subst hc3
            split at h
            case isTrue => cases h
            case isFalse hne2 =>
              split at h
              case h_2 => cases h
              case h_1 c4 r8 heq8 =>
                split at h
                case isFalse => cases h
                case isTrue hc4 =>
                  subst hc4
                  simp only [Option.some.injEq, Prod.mk.injEq] at h
                  obtain ⟨hst, hpn, hrest⟩ := h
                  subst hrest
                  subst hst
                  subst hpn
                  have hne3 : List.takeWhile isIdentChar
                      (List.dropWhile (fun x => x == ' ') r0) ≠ [] := by
                    intro hh
                    rw [hh] at hne
                    exact hne rfl
                  have hne4 : List.takeWhile isIdentChar
                      (List.dropWhile (fun x => x == ' ') r4) ≠ [] := by
                    intro hh
                    rw [hh] at hne2
                    exact hne2 rfl
                  refine ⟨r0.takeWhile (· == ' '),
                    ((r0.dropWhile (· == ' ')).dropWhile isIdentChar).takeWhile (· == ' '),
                    r4.takeWhile (· == ' '),
                    ((r4.dropWhile (· == ' ')).dropWhile isIdentChar).takeWhile (· == ' '),
                    ?_, ?_, ?_, ?_, ?_, ?_, ?_⟩
                  · intro c hc
                    have h2 := List.mem_takeWhile_imp hc
                    simpa using h2
                  · intro c hc
                    have h2 := List.mem_takeWhile_imp hc
                    simpa using h2
                  · intro c hc
                    have h2 := List.mem_takeWhile_imp hc
                    simpa using h2
                  · intro c hc
                    have h2 := List.mem_takeWhile_imp hc
                    simpa using h2
                  · exact ⟨hne3, fun c hc => List.mem_takeWhile_imp hc⟩
                  · exact ⟨hne4, fun c hc => List.mem_takeWhile_imp hc⟩
                  · rw [refTokenChars]
                    have e0 : r0 = r0.takeWhile (· == ' ') ++ r0.dropWhile (· == ' ') :=
                      (List.takeWhile_append_dropWhile (fun x => x == ' ') _).symm
                    have e1 : r0.dropWhile (· == ' ')
                        = (r0.dropWhile (· == ' ')).takeWhile isIdentChar
                          ++ (r0.dropWhile (· == ' ')).dropWhile isIdentChar :=
                      (List.takeWhile_append_dropWhile isIdentChar _).symm
                    have e2 : (r0.dropWhile (· == ' ')).dropWhile isIdentChar
                        = ((r0.dropWhile (· == ' ')).dropWhile isIdentChar).takeWhile (· == ' ')
                          ++ ((r0.dropWhile (· == ' ')).dropWhile isIdentChar).dropWhile
                            (· == ' ') :=
                      (List.takeWhile_append_dropWhile (fun x => x == ' ') _).symm
                    have e3 : r4 = r4.takeWhile (· == ' ') ++ r4.dropWhile (· == ' ') :=
                      (List.takeWhile_append_dropWhile (fun x => x == ' ') _).symm
                    have e4 : r4.dropWhile (· == ' ')
                        = (r4.dropWhile (· == ' ')).takeWhile isIdentChar
                          ++ (r4.dropWhile (· == ' ')).dropWhile isIdentChar :=
                      (List.takeWhile_append_dropWhile isIdentChar _).symm
                    have e5 : (r4.dropWhile (· == ' ')).dropWhile isIdentChar
                        = ((r4.dropWhile (· == ' ')).dropWhile isIdentChar).takeWhile (· == ' ')
                          ++ ((r4.dropWhile (· == ' ')).dropWhile isIdentChar).dropWhile
                            (· == ' ') :=
                      (List.takeWhile_append_dropWhile (fun x => x == ' ') _).symm
                    conv_lhs => rw [e0, e1, e2, heq4, e3, e4, e5, heq8]
                    simp [List.append_assoc]

/-- Completeness of one match attempt: a well-formed reference token at the
head of the input is matched, capturing the two stripped names. -/
theorem tryMatchRef_token {w1 st w2 w3 pn w4 : List Char} (post : List Char)
    (hw1 : isSpaceRun w1) (hw2 : isSpaceRun w2) (hw3 : isSpaceRun w3) (hw4 : isSpaceRun w4)
    (hst : isIdentStr st) (hpn : isIdentStr pn) :
    tryMatchRef (refTokenChars w1 st w2 w3 pn w4 ++ post) = some (st, pn, post) := by
  have hshape : refTokenChars w1 st w2 w3 pn w4 ++ post
      = '@' :: '{' :: (w1 ++ (st ++ (w2 ++ '.' :: (w3 ++ (pn ++ (w4 ++ '}' :: post)))))) := by
    simp [refTokenChars, List.append_assoc]
  have hA : (w1 ++ (st ++ (w2 ++ '.' :: (w3 ++ (pn ++ (w4 ++ '}' :: post)))))).dropWhile
      (· == ' ') = st ++ (w2 ++ '.' :: (w3 ++ (pn ++ (w4 ++ '}' :: post)))) := by
    rw [dropWhile_all (spaceRun_beq hw1)]
    exact identStr_head_not_space hst _
  have hB := takeWhile_stop (identStr_bool hst)
    (head_not_ident hw2 (show isIdentChar '.' = false from rfl) (w3 ++ (pn ++ (w4 ++ '}' :: post))))
  have hC : ((w2 ++ '.' :: (w3 ++ (pn ++ (w4 ++ '}' :: post))))).dropWhile (· == ' ')
      = '.' :: (w3 ++ (pn ++ (w4 ++ '}' :: post))) :=
    drop_spaces_to hw2 (show (('.' : Char) == ' ') = false from rfl) _
  have hD : (w3 ++ (pn ++ (w4 ++ '}' :: post))).dropWhile (· == ' ')
      = pn ++ (w4 ++ '}' :: post) := by
    rw [dropWhile_all (spaceRun_beq hw3)]
    exact identStr_head_not_space hpn _
  have hE := takeWhile_stop (identStr_bool hpn) (head_not_ident hw4 (show isIdentChar ('}' : Char) = false from rfl) post)
  have hF : (w4 ++ '}' :: post).dropWhile (· == ' ') = '}' :: post :=
    drop_spaces_to hw4 (show (('}' : Char) == ' ') = false from rfl) post
  have hstE : st.isEmpty = false := by
    rcases hs : st with _ | ⟨c, st2⟩
    · exact absurd hs hst.1
    · rfl
  have hpnE : pn.isEmpty = false := by
    rcases hs : pn with _ | ⟨c, pn2⟩
    · exact absurd hs hpn.1
    · rfl
  rw [hshape, tryMatchRef]
  dsimp only
  rw [if_pos ⟨rfl, rfl⟩, hA, hB.1, hB.2, hstE]
  simp only [Bool.false_eq_true, if_false]
  rw [hC]
  dsimp only
  rw [if_pos rfl, hD, hE.1, hE.2, hpnE]
  simp only [Bool.false_eq_true, if_false]
  rw [hF]
  dsimp only
  rw [if_pos rfl]

/-- Soundness of the scanner: a found token means the input contains a
well-formed reference token, whose stripped names are the captures. -/
theorem findRef_sound : ∀ {l st pn tok : List Char},
    findRef l = some (st, pn, tok) → hasRefTokenSp l ∧ isIdentStr st ∧ isIdentStr pn := by
  intro l
  induction l with
  | nil => intro st pn tok h; cases h
  | cons c t ih =>
    intro st pn tok h
    rw [findRef] at h
    split at h
    · rename_i r heq
      obtain ⟨st0, pn0, rest0⟩ := r
      simp only [Option.some.injEq, Prod.mk.injEq] at h
      obtain ⟨hst, hpn, htok⟩ := h
      obtain ⟨w1, w2, w3, w4, q1, q2, q3, q4, qst, qpn, qeq⟩ := tryMatchRef_decomp heq
      subst hst
      subst hpn
      refine ⟨⟨[], w1, st0, w2, w3, pn0, w4, rest0, q1, q2, q3, q4, qst, qpn, by
        rw [List.nil_append]; exact qeq⟩, qst, qpn⟩
    · exact
        let ⟨⟨pre, w1, st1, w2, w3, pn1, w4, post, q1, q2, q3, q4, qst, qpn, qeq⟩, h2, h3⟩ :=
          ih h
        ⟨⟨c :: pre, w1, st1, w2, w3, pn1, w4, post, q1, q2, q3, q4, qst, qpn, by
          simp [qeq, List.append_assoc]⟩, h2, h3⟩

/-- Completeness of the scanner: an input containing a well-formed
reference token is recognized. -/
theorem findRef_complete {l : List Char} (h : hasRefTokenSp l) : (findRef l).isSome := by
  obtain ⟨pre, w1, st, w2, w3, pn, w4, post, q1, q2, q3, q4, qst, qpn, qeq⟩ := h
  subst qeq
  induction pre with
  | nil =>
    rw [List.nil_append]
    have htok := tryMatchRef_token post q1 q2 q3 q4 qst qpn
    have hsh : refTokenChars w1 st w2 w3 pn w4 ++ post
        = '@' :: '{' :: (w1 ++ st ++ w2 ++ '.' :: (w3 ++ pn ++ w4 ++ ['}']) ++ post) := by
      rw [refTokenChars]
      simp [List.append_assoc]
    rw [hsh] at htok ⊢
    rw [findRef, htok]
    rfl
  | cons a pre2 ih =>
    have hgoal : (a :: pre2) ++ refTokenChars w1 st w2 w3 pn w4 ++ post
        = a :: (pre2 ++ refTokenChars w1 st w2 w3 pn w4 ++ post) := by
      simp [List.append_assoc]
    rw [hgoal, findRef]
    split
    · rfl
    · exact ih

theorem wstep_erase_set (s s' : WorkflowStep) (h : s.erase = s'.erase)
    (x : Option StepState) : {s with _step := x} = {s' with _step := x} := by
  obtain ⟨n, t, d, i, b⟩ := s
  obtain ⟨n', t', d', i', b'⟩ := s'
  simp only [WorkflowStep.erase, WorkflowStep.mk.injEq] at h ⊢
  simp_all

theorem iparam_erase_set (p p' : InputParameter) (h : p.erase = p'.erase)
    (v : PyVal) : ({p with value := v} : InputParameter) = {p' with value := v} := by
  obtain ⟨⟨n, dt, vv, o, df, ds, ct, ch, iv, md⟩, up⟩ := p
  obtain ⟨⟨n', dt', vv', o', df', ds', ct', ch', iv', md'⟩, up'⟩ := p'
  simp only [InputParameter.erase, InputParameter.mk.injEq, Parameter.mk.injEq] at h ⊢
  simp_all

theorem init_input_congr (reg : List (String × StepClass)) (s s' : WorkflowStep)
    (h : s.erase = s'.erase) (hreg : (alistGet reg s.type).isSome) :
    WorkflowStep.init_input reg s = WorkflowStep.init_input reg s' := by
  have hn0 := congrArg WorkflowStep.name h
  have ht0 := congrArg WorkflowStep.type h
  have hi0 := congrArg WorkflowStep.inputs h
  have hn : s.name = s'.name := hn0
  have ht : s.type = s'.type := ht0
  have hi : s.inputs = s'.inputs := hi0
  rw [WorkflowStep.init_input, WorkflowStep.init_input, ← ht]
  rcases hc : alistGet reg s.type with _ | cls
  · rw [hc] at hreg; cases hreg
  · dsimp only
    have hsn : stepNew cls s.name s.inputs = stepNew cls s'.name s'.inputs := by
      rw [hn, hi]
    have hfun2 : (fun st : StepState => ({s with _step := some st} : WorkflowStep))
        = (fun st => {s' with _step := some st}) :=
      funext (fun st => wstep_erase_set s s' h (some st))
    rw [hsn, hfun2, ht]

theorem init_input_erase (reg : List (String × StepClass)) (s s1 : WorkflowStep)
    (h : WorkflowStep.init_input reg s = Except.ok s1) : s1.erase = s.erase := by
  rw [WorkflowStep.init_input] at h
  split at h
  · cases h; rfl
  · rcases hn : stepNew _ s.name s.inputs with e | st
    · rw [hn] at h; cases h
    · rw [hn] at h
      simp only [Except.map, Except.ok.injEq] at h
      rw [← h]
      rfl

theorem runStep_erase (fuel : Nat) (s s2 : WorkflowStep) (ctx ctx2 : Ctx) (dry : Bool)
    (res : Except PyErr WorkflowStepResult)
    (h : WorkflowStep.run fuel s ctx dry = some (s2, ctx2, res)) : s2.erase = s.erase := by
  rw [WorkflowStep.run] at h
  split at h
  · simp only [Option.some.injEq, Prod.mk.injEq] at h
    rw [← h.1]
  · rcases hb : BaseStep.run fuel _ ctx dry with _ | ⟨st2, ctxb, resb⟩
    · rw [hb] at h; cases h
    · rw [hb] at h
      simp only [Option.map_some', Option.some.injEq, Prod.mk.injEq] at h
      rw [← h.1]
      rfl

theorem runSteps_congr (reg : List (String × StepClass)) (fuel : Nat) (dry : Bool) :
    ∀ (steps steps' : List WorkflowStep) (ctx : Ctx) (status : WorkflowRunStatus),
      steps.map WorkflowStep.erase = steps'.map WorkflowStep.erase →
      (∀ s ∈ steps, (alistGet reg s.type).isSome) →
      (runSteps reg fuel dry steps ctx status = Option.none
        ∧ runSteps reg fuel dry steps' ctx status = Option.none)
      ∨ (∃ o o', runSteps reg fuel dry steps ctx status = some o
          ∧ runSteps reg fuel dry steps' ctx status = some o'
          ∧ o.ctx = o'.ctx ∧ o.results = o'.results ∧ o.status = o'.status ∧ o.exc = o'.exc
          ∧ o.steps.map WorkflowStep.erase = o'.steps.map WorkflowStep.erase) := by
  intro steps
  induction steps with
  | nil =>
    intro steps' ctx status hmap _
    rcases steps' with _ | ⟨s', rest'⟩
    · exact Or.inr ⟨⟨[], ctx, [], status, Option.none⟩, ⟨[], ctx, [], status, Option.none⟩,
        rfl, rfl, rfl, rfl, rfl, rfl, rfl⟩
    · cases hmap
  | cons s rest ih =>
    intro steps' ctx status hmap hreg
    rcases steps' with _ | ⟨s', rest'⟩
    · cases hmap
    · simp only [List.map_cons, List.cons.injEq] at hmap
      obtain ⟨hse, hrest⟩ := hmap
      have hinit := init_input_congr reg s s' hse (hreg s (by simp))
      rw [runSteps, runSteps, ← hinit]
      rcases hi : WorkflowStep.init_input reg s with e | s1
      · exact Or.inr ⟨⟨s :: rest, ctx, [], status, some e⟩,
          ⟨s' :: rest', ctx, [], status, some e⟩, rfl, rfl, rfl, rfl, rfl, rfl, by
            simp only [List.map_cons, hse, hrest]⟩
      · dsimp only
        rcases hr : WorkflowStep.run fuel s1 ctx dry with _ | ⟨s2, ctx2, res⟩
        · exact Or.inl ⟨rfl, rfl⟩
        · cases res with
          | error e =>
            exact Or.inr ⟨⟨s2 :: rest, ctx2, [], status, some e⟩,
              ⟨s2 :: rest', ctx2, [], status, some e⟩, rfl, rfl, rfl, rfl, rfl, rfl, by
                simp only [List.map_cons, hrest]⟩
          | ok r =>
            dsimp only
            rcases ih rest' ctx2
                (if r.status = WorkflowStepStatus.FAILURE then WorkflowRunStatus.FAILURE
                 else status) hrest (fun x hx => hreg x (List.mem_cons_of_mem _ hx)) with
              ⟨hn1, hn2⟩ | ⟨t, t', ht1, ht2, e1, e2, e3, e4, e5⟩
            · rw [hn1, hn2]
              exact Or.inl ⟨rfl, rfl⟩
            · rw [ht1, ht2]
              exact Or.inr ⟨⟨s2 :: t.steps, t.ctx, r :: t.results, t.status, t.exc⟩,
                ⟨s2 :: t'.steps, t'.ctx, r :: t'.results, t'.status, t'.exc⟩,
                rfl, rfl, e1, by rw [e2], by rw [e3], e4, by
                  simp only [List.map_cons, e5]⟩

theorem get_dry_run_value_congr (p q : Parameter) (h : p.data_type = q.data_type) :
    Parameter.get_dry_run_value p = Parameter.get_dry_run_value q := by
  rw [Parameter.get_dry_run_value, Parameter.get_dry_run_value, h]

theorem seedDryRun_congr :
    ∀ (l l' : List InputParameter) (ri : List (String × PyVal)),
      l.map InputParameter.erase = l'.map InputParameter.erase →
      seedDryRun l ri = seedDryRun l' ri := by
  intro l
  induction l with
  | nil =>
    intro l' ri hmap
    rcases l' with _ | ⟨p', rest'⟩
    · rfl
    · cases hmap
  | cons p rest ih =>
    intro l' ri hmap
    rcases l' with _ | ⟨p', rest'⟩
    · cases hmap
    · simp only [List.map_cons, List.cons.injEq] at hmap
      obtain ⟨hpe, hrest⟩ := hmap
      have hdt : p.data_type = p'.data_type := by
        exact congrArg (fun z => z.data_type) hpe
      have hnm : p.name = p'.name := by
        exact congrArg (fun z => z.name) hpe
      rw [seedDryRun, seedDryRun,
        get_dry_run_value_congr p.toParameter p'.toParameter hdt]
      rcases hg : Parameter.get_dry_run_value p'.toParameter with e | v
      · rfl
      · rw [hnm]
        exact ih rest' (alistSet ri p'.name v) hrest

theorem value_validation_congr (p q : Parameter)
    (hn : p.name = q.name) (hd : p.data_type = q.data_type) (hv : p.value = q.value)
    (ho : p.optional = q.optional) :
    Parameter.value_validation p = Parameter.value_validation q := by
  rw [Parameter.value_validation, Parameter.value_validation, hn, hd, hv, ho]

theorem runValidatePhase_congr :
    ∀ (l l' : List InputParameter) (ri : List (String × PyVal)),
      l.map InputParameter.erase = l'.map InputParameter.erase →
      (runValidatePhase ri l).2 = (runValidatePhase ri l').2
      ∧ (runValidatePhase ri l).1.map InputParameter.erase
          = (runValidatePhase ri l').1.map InputParameter.erase
      ∧ ((runValidatePhase ri l).2.2 = Option.none →
          (runValidatePhase ri l).1 = (runValidatePhase ri l').1) := by
  intro l
  induction l with
  | nil =>
    intro l' ri hmap
    rcases l' with _ | ⟨p', rest'⟩
    · exact ⟨rfl, rfl, fun _ => rfl⟩
    · cases hmap
  | cons p rest ih =>
    intro l' ri hmap
    rcases l' with _ | ⟨p', rest'⟩
    · cases hmap
    · simp only [List.map_cons, List.cons.injEq] at hmap
      obtain ⟨hpe, hrest⟩ := hmap
      obtain ⟨⟨n, dt, v, o, df, ds, ct, ch, iv, md⟩, up⟩ := p
      obtain ⟨⟨n', dt', v', o', df', ds', ct', ch', iv', md'⟩, up'⟩ := p'
      simp only [InputParameter.erase, InputParameter.mk.injEq, Parameter.mk.injEq] at hpe
      obtain ⟨⟨rfl, rfl, -, rfl, rfl, rfl, rfl, rfl, rfl, rfl⟩, rfl⟩ := hpe
      have hih := ih rest' ri hrest
      rw [runValidatePhase, runValidatePhase]
      dsimp only
      rcases hval : Parameter.value_validation
          ⟨n, dt, (match alistGet ri n with | some w => w | Option.none => df),
            o, df, ds, ct, ch, iv, md⟩ with e | verrs
      · refine ⟨rfl, ?_, ?_⟩
        · simp only [List.map_cons, List.cons.injEq]
          exact ⟨trivial, hrest⟩
        · intro hx
          cases hx
      · have h21 : (runValidatePhase ri rest).2.1 = (runValidatePhase ri rest').2.1 := by
          rw [hih.1]
        have h22 : (runValidatePhase ri rest).2.2 = (runValidatePhase ri rest').2.2 := by
          rw [hih.1]
        refine ⟨?_, ?_, ?_⟩
        · rw [h21, h22]
        · simp only [List.map_cons, List.cons.injEq]
          exact ⟨trivial, hih.2.1⟩
        · intro hx
          rw [hih.2.2 hx]

theorem runValidatePhase_erase (ri : List (String × PyVal)) :
    ∀ (l : List InputParameter),
      (runValidatePhase ri l).1.map InputParameter.erase = l.map InputParameter.erase := by
  intro l
  induction l with
  | nil => rfl
  | cons p rest ih =>
    rw [runValidatePhase]
    rcases hv : Parameter.value_validation
        ({p with value := (match alistGet ri p.name with
          | some w => w
          | Option.none => p.default)} : InputParameter).toParameter with e | verrs
    · simp only [List.map_cons, List.cons.injEq]
      exact ⟨by trivial, by trivial⟩
    · simp only [List.map_cons, List.cons.injEq]
      exact ⟨by trivial, ih⟩

theorem runSteps_steps_erase (reg : List (String × StepClass)) (fuel : Nat) (dry : Bool) :
    ∀ (steps : List WorkflowStep) (ctx : Ctx) (status : WorkflowRunStatus) (o : StepsOutcome),
      runSteps reg fuel dry steps ctx status = some o →
      o.steps.map WorkflowStep.erase = steps.map WorkflowStep.erase := by
  intro steps
  induction steps with
  | nil =>
    intro ctx status o h
    simp only [runSteps, Option.some.injEq] at h
    rw [← h]
  | cons s rest ih =>
    intro ctx status o h
    rw [runSteps] at h
    split at h
    · rename_i e heq
      simp only [Option.some.injEq] at h
      rw [← h]
    · rename_i s1 heq
      have he1 : s1.erase = s.erase := init_input_erase reg s s1 heq
      split at h
      · cases h
      · rename_i s2 ctx2 e heq2
        have he2 : s2.erase = s1.erase := runStep_erase fuel s1 s2 ctx ctx2 dry _ heq2
        simp only [Option.some.injEq] at h
        rw [← h]
        simp only [List.map_cons, he2, he1]
      · rename_i s2 ctx2 r heq2
        have he2 : s2.erase = s1.erase := runStep_erase fuel s1 s2 ctx ctx2 dry _ heq2
        rcases ht : runSteps reg fuel dry rest ctx2
            (if r.status = WorkflowStepStatus.FAILURE then WorkflowRunStatus.FAILURE
             else status) with _ | t
        · rw [ht] at h; cases h
        · rw [ht] at h
          simp only [Option.map_some', Option.some.injEq] at h
          rw [← h]
          simp only [List.map_cons, he2, he1, ih ctx2 _ t ht]

theorem runCore_congr (reg : List (String × StepClass)) (fuel : Nat)
    (wd wd2 : WorkflowDef) (ri : List (String × PyVal)) (dry : Bool)
    (hin : wd.inputs.map InputParameter.erase = wd2.inputs.map InputParameter.erase)
    (hst : wd.steps.map WorkflowStep.erase = wd2.steps.map WorkflowStep.erase)
    (hreg : ∀ s ∈ wd.steps, (alistGet reg s.type).isSome) :
    (runCore reg fuel wd ri dry = Option.none ∧ runCore reg fuel wd2 ri dry = Option.none)
    ∨ (∃ o o2, runCore reg fuel wd ri dry = some o ∧ runCore reg fuel wd2 ri dry = some o2
        ∧ o.run_inputs = o2.run_inputs ∧ o.result = o2.result) := by
  obtain ⟨hph2, hphE, hphF⟩ := runValidatePhase_congr wd.inputs wd2.inputs ri hin
  rcases hexc : (runValidatePhase ri wd.inputs).2.2 with _ | e
  · have hexc2 : (runValidatePhase ri wd2.inputs).2.2 = Option.none := by
      rw [← hph2]; exact hexc
    have hfull : (runValidatePhase ri wd.inputs).1 = (runValidatePhase ri wd2.inputs).1 :=
      hphF hexc
    have herrs : (runValidatePhase ri wd.inputs).2.1 = (runValidatePhase ri wd2.inputs).2.1 := by
      rw [hph2]
    by_cases herr : (runValidatePhase ri wd.inputs).2.1 = []
    · have herr2 : (runValidatePhase ri wd2.inputs).2.1 = [] := by rw [← herrs]; exact herr
      rcases runSteps_congr reg fuel dry wd.steps wd2.steps
          ((runValidatePhase ri wd.inputs).1.foldl
            (fun c p => alistSet c ("input." ++ p.name) p.value) [])
          WorkflowRunStatus.SUCCESS hst hreg with
        ⟨hn, hn2⟩ | ⟨o, o2, ho, ho2, hcx, hrs, hss, hex, _⟩
      · left
        constructor
        · simp [runCore, hexc, herr, hn]
        · simp [runCore, hexc2, herr2, ← hfull, hn2]
      · obtain ⟨osteps, octx, ores, ostat, oexc⟩ := o
        obtain ⟨osteps2, octx2, ores2, ostat2, oexc2⟩ := o2
        dsimp only at hcx hrs hss hex
        subst hcx; subst hrs; subst hss; subst hex
        cases oexc with
        | some e3 =>
          refine Or.inr
            ⟨⟨{ wd with inputs := (runValidatePhase ri wd.inputs).1, steps := osteps },
               ri, Except.error e3⟩,
             ⟨{ wd2 with inputs := (runValidatePhase ri wd2.inputs).1, steps := osteps2 },
               ri, Except.error e3⟩, ?_, ?_, rfl, rfl⟩
          · simp [runCore, hexc, herr, ho]
          · simp [runCore, hexc2, herr2, ← hfull, ho2]
        | none =>
          refine Or.inr
            ⟨⟨{ wd with inputs := (runValidatePhase ri wd.inputs).1, steps := osteps },
               ri, Except.ok { status := ostat, result := ores }⟩,
             ⟨{ wd2 with inputs := (runValidatePhase ri wd2.inputs).1, steps := osteps2 },
               ri, Except.ok { status := ostat, result := ores }⟩, ?_, ?_, rfl, rfl⟩
          · simp [runCore, hexc, herr, ho]
          · simp [runCore, hexc2, herr2, ← hfull, ho2]
    · refine Or.inr ⟨⟨{wd with inputs := (runValidatePhase ri wd.inputs).1}, ri,
          Except.ok (inputFailureResult (runValidatePhase ri wd.inputs).2.1)⟩,
        ⟨{wd2 with inputs := (runValidatePhase ri wd2.inputs).1}, ri,
          Except.ok (inputFailureResult (runValidatePhase ri wd2.inputs).2.1)⟩, ?_, ?_, rfl, ?_⟩
      · simp [runCore, hexc, herr]
      · have herr2 : ¬(runValidatePhase ri wd2.inputs).2.1 = [] := by
          rw [← herrs]; exact herr
        simp [runCore, hexc2, herr2]
      · dsimp only
        rw [herrs]
  · have hexc2 : (runValidatePhase ri wd2.inputs).2.2 = some e := by
      rw [← hph2]; exact hexc
    refine Or.inr ⟨⟨{wd with inputs := (runValidatePhase ri wd.inputs).1}, ri, Except.error e⟩,
      ⟨{wd2 with inputs := (runValidatePhase ri wd2.inputs).1}, ri, Except.error e⟩,
      ?_, ?_, rfl, rfl⟩
    · simp [runCore, hexc]
    · simp [runCore, hexc2]

theorem run_congr (reg : List (String × StepClass)) (fuel : Nat)
    (wd wd2 : WorkflowDef) (ins : Option (List (String × PyVal))) (dry : Bool)
    (hin : wd.inputs.map InputParameter.erase = wd2.inputs.map InputParameter.erase)
    (hst : wd.steps.map WorkflowStep.erase = wd2.steps.map WorkflowStep.erase)
    (hreg : ∀ s ∈ wd.steps, (alistGet reg s.type).isSome) :
    (WorkflowDef.run reg fuel wd ins dry = Option.none
      ∧ WorkflowDef.run reg fuel wd2 ins dry = Option.none)
    ∨ (∃ o o2, WorkflowDef.run reg fuel wd ins dry = some o
        ∧ WorkflowDef.run reg fuel wd2 ins dry = some o2
        ∧ o.run_inputs = o2.run_inputs ∧ o.result = o2.result) := by
  cases dry with
  | false =>
    have hrw : WorkflowDef.run reg fuel wd ins false
        = runCore reg fuel wd (ins.getD []) false := by
      simp [WorkflowDef.run]
    have hrw2 : WorkflowDef.run reg fuel wd2 ins false
        = runCore reg fuel wd2 (ins.getD []) false := by
      simp [WorkflowDef.run]
    rw [hrw, hrw2]
    exact runCore_congr reg fuel wd wd2 (ins.getD []) false hin hst hreg
  | true =>
    have hseed := seedDryRun_congr wd.inputs wd2.inputs (ins.getD []) hin
    rcases hs2 : (seedDryRun wd2.inputs (ins.getD [])).2 with _ | e
    · have hrw : WorkflowDef.run reg fuel wd ins true
          = runCore reg fuel wd (seedDryRun wd2.inputs (ins.getD [])).1 true := by
        simp [WorkflowDef.run, hseed, hs2]
      have hrw2 : WorkflowDef.run reg fuel wd2 ins true
          = runCore reg fuel wd2 (seedDryRun wd2.inputs (ins.getD [])).1 true := by
        simp [WorkflowDef.run, hs2]
      rw [hrw, hrw2]
      exact runCore_congr reg fuel wd wd2 _ true hin hst hreg
    · refine Or.inr ⟨⟨wd, (seedDryRun wd2.inputs (ins.getD [])).1, Except.error e⟩,
        ⟨wd2, (seedDryRun wd2.inputs (ins.getD [])).1, Except.error e⟩, ?_, ?_, rfl, rfl⟩
      · simp [WorkflowDef.run, hseed, hs2]
      · simp [WorkflowDef.run, hs2]

theorem runCore_erase (reg : List (String × StepClass)) (fuel : Nat)
    (wd : WorkflowDef) (ri : List (String × PyVal)) (dry : Bool) (o : RunOutcome)
    (h : runCore reg fuel wd ri dry = some o) :
    o.wd.inputs.map InputParameter.erase = wd.inputs.map InputParameter.erase
    ∧ o.wd.steps.map WorkflowStep.erase = wd.steps.map WorkflowStep.erase := by
  unfold runCore at h
  dsimp only at h
  rcases hexc : (runValidatePhase ri wd.inputs).2.2 with _ | e2
  · rw [hexc] at h
    simp only at h
    by_cases herr : (runValidatePhase ri wd.inputs).2.1 = []
    · rw [if_neg (by simp [herr])] at h
      rcases hsteps : runSteps reg fuel dry wd.steps
          ((runValidatePhase ri wd.inputs).1.foldl
            (fun c p => alistSet c ("input." ++ p.name) p.value) [])
          WorkflowRunStatus.SUCCESS with _ | o2
      · rw [hsteps] at h; cases h
      · rw [hsteps] at h
        have hse := runSteps_steps_erase reg fuel dry wd.steps _ _ o2 hsteps
        obtain ⟨sts, cx, rs, stt, exc⟩ := o2
        dsimp only at hse
        cases exc with
        | some e3 =>
          simp only [Option.some.injEq] at h
          rw [← h]
          exact ⟨runValidatePhase_erase ri wd.inputs, hse⟩
        | none =>
          simp only [Option.some.injEq] at h
          rw [← h]
          exact ⟨runValidatePhase_erase ri wd.inputs, hse⟩
    · rw [if_pos (by simp [herr])] at h
      simp only [Option.some.injEq] at h
      rw [← h]
      exact ⟨runValidatePhase_erase ri wd.inputs, rfl⟩
  · rw [hexc] at h
    simp only [Option.some.injEq] at h
    rw [← h]
    exact ⟨runValidatePhase_erase ri wd.inputs, rfl⟩

theorem run_erase (reg : List (String × StepClass)) (fuel : Nat)
    (wd : WorkflowDef) (ins : Option (List (String × PyVal))) (dry : Bool) (o : RunOutcome)
    (h : WorkflowDef.run reg fuel wd ins dry = some o) :
    o.wd.inputs.map InputParameter.erase = wd.inputs.map InputParameter.erase
    ∧ o.wd.steps.map WorkflowStep.erase = wd.steps.map WorkflowStep.erase := by
  unfold WorkflowDef.run at h
  dsimp only at h
  rcases hseed : (if dry then seedDryRun wd.inputs (ins.getD [])
      else (ins.getD [], Option.none)).2 with _ | e
  · rw [hseed] at h
    simp only at h
    exact runCore_erase reg fuel wd _ dry o h
  · rw [hseed] at h
    simp only [Option.some.injEq] at h
    rw [← h]
    exact ⟨rfl, rfl⟩

/-! ## Claim theorems -/



/-- C1: the claim asserts that a live `run` with an overridden non-READ_WRITE
input fails with an immutable-parameter violation before any step executes.
The code disagrees: `WorkflowDef.run` performs only the missing/type checks
(`workflowyaml.py` lines 300-311) and never invokes the permission rule, so
the run uses the override and succeeds; the immutability check lives only in
the never-called `WorkflowDef.validate_inputs`.  This theorem evaluates the
code at the claim's own scenario: the run returns SUCCESS with the step
executed on the overridden value `"y"`, while `validate_inputs` on the same
inputs does flag the immutable-parameter violation. -/
theorem C1_run_does_not_enforce_immutability :
    runObs (WorkflowDef.run registered_steps 10 readOnlyWorkflow
        (some [("x_input", PyVal.str "y")]) false)
      = some (Except.ok (WorkflowRunStatus.SUCCESS,
          [("step1", WorkflowStepStatus.SUCCESS, Option.none, [("output", PyVal.str "y")])]))
    ∧ (WorkflowDef.validate_inputs readOnlyWorkflow [("x_input", PyVal.str "y")]).2.1
      = [{ loc := some "x_input", msg := "Parameter is immutable",
           type := "immutable_workflow_input" }] :=
  ⟨by decide, by decide⟩

/-- C6: the round-trip property: a workflow with exactly one `dummy` step and
raw input `"input": "Hello, World!"`, run live, produces a step result whose
`output` parameter is `"Hello, World!"` and an aggregate SUCCESS. -/
theorem C6_dummy_round_trip :
    runObs (WorkflowDef.run registered_steps 10 helloWorkflow Option.none false)
      = some (Except.ok (WorkflowRunStatus.SUCCESS,
          [("step1", WorkflowStepStatus.SUCCESS, Option.none,
            [("output", PyVal.str "Hello, World!")])])) := by decide

/-- C5: `Parameter.v` returns `value` when set, otherwise `default`, coerced
per the declared data type exactly as the claim states (formalised by
`resolvedValueSpec`).  The hypotheses exclude the `PydanticUndefined`
sentinel, which no pydantic-constructed parameter stores. -/
theorem C5_resolvedValue_contract (p : Parameter)
    (h1 : p.value ≠ PyVal.undef) (h2 : p.default ≠ PyVal.undef) :
    Parameter.v p = resolvedValueSpec p := by
  have hr : (if p.value = PyVal.none then p.default else p.value) ≠ PyVal.undef := by
    by_cases h : p.value = PyVal.none <;> simp [h, h1, h2]
  cases hd : p.data_type <;>
    by_cases hn : (if p.value = PyVal.none then p.default else p.value) = PyVal.none <;>
      simp [Parameter.v, resolvedValueSpec, hd, hr, hn]

/-- Witness for C5 at a concrete NUMBER parameter. -/
theorem C5_witness :
    c5param.value ≠ PyVal.undef ∧ c5param.default ≠ PyVal.undef
    ∧ Parameter.v c5param = resolvedValueSpec c5param :=
  ⟨by decide, by decide, C5_resolvedValue_contract c5param (by decide) (by decide)⟩

/-- C10: in dry-run mode the caller's `run_inputs` dict is mutated in place
(modelled as the dict state `o.run_inputs` returned by the run): every
declared workflow input's entry ends up holding its fixed placeholder,
overwriting whatever the caller supplied under that name.  Hypotheses:
declared input names are unique (a Parameter invariant) and every declared
input has a placeholder, i.e. `get_dry_run_value` succeeds - for any other
data type its `assert` aborts the run midway (and such a definition cannot
pass construction-time dry-run validation in the first place). -/
theorem C10_dry_run_overwrites_run_inputs (reg : List (String × StepClass)) (fuel : Nat)
    (wd : WorkflowDef) (ri : List (String × PyVal)) (o : RunOutcome)
    (p : InputParameter) (v : PyVal)
    (hnd : (wd.inputs.map (fun q => q.name)).Nodup)
    (hok : ∀ q ∈ wd.inputs, ∃ w, Parameter.get_dry_run_value q.toParameter = Except.ok w)
    (hrun : WorkflowDef.run reg fuel wd (some ri) true = some o)
    (hp : p ∈ wd.inputs)
    (hv : Parameter.get_dry_run_value p.toParameter = Except.ok v) :
    alistGet o.run_inputs p.name = some v := by
  rw [run_dry_run_inputs reg fuel wd ri o hrun]
  exact seedDryRun_lookup wd.inputs ri p v hnd hok hp hv

/-- Witness for C10: the caller supplies `s = "caller"`; after a dry run the
dict holds the placeholder `"dummy"`. -/
theorem C10_witness :
    (seedWorkflow.inputs.map (fun q => q.name)).Nodup
    ∧ WorkflowDef.run registered_steps 10 seedWorkflow
        (some [("s", PyVal.str "caller")]) true
      = some { wd := { seedWorkflow with
                 inputs := [{ name := "s", data_type := ParameterDataType.STRING,
                              value := PyVal.str "dummy", default := PyVal.str "d" }] },
               run_inputs := [("s", PyVal.str "dummy")],
               result := Except.ok { status := WorkflowRunStatus.SUCCESS, result := [] } }
    ∧ alistGet ([("s", PyVal.str "dummy")] : List (String × PyVal)) "s"
      = some (PyVal.str "dummy") := by
  refine ⟨by decide, rfl, ?_⟩
  have h := C10_dry_run_overwrites_run_inputs registered_steps 10 seedWorkflow
    [("s", PyVal.str "caller")]
    { wd := { seedWorkflow with
        inputs := [{ name := "s", data_type := ParameterDataType.STRING,
                     value := PyVal.str "dummy", default := PyVal.str "d" }] },
      run_inputs := [("s", PyVal.str "dummy")],
      result := Except.ok { status := WorkflowRunStatus.SUCCESS, result := [] } }
    (seedWorkflow.inputs.head (by decide)) (PyVal.str "dummy")
    (by decide)
    (by intro q hq; exact ⟨PyVal.str "dummy", by
      simp only [seedWorkflow, List.mem_singleton] at hq
      rw [hq]; rfl⟩)
    rfl
    (by decide)
    (by rfl)
  exact h

/-- C9 counterexample: the claim says a context entry bound to `None` is
*indistinguishable* from a missing key ("raises a ValueReferenceError
exactly as if the key were absent").  The resolution outcome is indeed the
same, but the raised errors are distinguishable: `available_variables` is
the list of context keys, which contains the null-valued key in one case
and not in the other. -/
theorem C9_counterexample :
    fill_value 1 (PyVal.str "@{a.b}") [("a.b", PyVal.none)] "s"
      = some (Except.error (PyErr.valueReferenceError "s" "a.b" ["a.b"]))
    ∧ fill_value 1 (PyVal.str "@{a.b}") [] "s"
      = some (Except.error (PyErr.valueReferenceError "s" "a.b" []))
    ∧ PyErr.valueReferenceError "s" "a.b" ["a.b"]
      ≠ PyErr.valueReferenceError "s" "a.b" [] := by
  exact ⟨by decide, by decide, by decide⟩

/-- C9 (amended): a reference token whose key is bound to `None` in the
context always fails resolution, raising a `ValueReferenceError` with the
same step name and the same unresolved token as when the key is absent; the
two cases differ only in the `available_variables` diagnostic, which lists
every context key including the null-valued one. -/
theorem C9_null_entry_unresolvable (fuel : Nat) (s : String) (ctx : Ctx) (cur : String)
    (st pn tok : List Char)
    (hf : findRef s.data = some (st, pn, tok))
    (hk : alistGet ctx (String.mk st ++ "." ++ String.mk pn) = some PyVal.none) :
    fill_value (fuel + 1) (PyVal.str s) ctx cur
      = some (Except.error (PyErr.valueReferenceError cur
          (String.mk st ++ "." ++ String.mk pn) (ctx.map Prod.fst))) := by
  simp [fill_value, fillLoop, hf, pyDictGet, hk, Except.map]

/-- Witness for the amended C9 at a concrete token and context. -/
theorem C9_witness :
    findRef ("@{a.b}" : String).data = some (['a'], ['b'], ("@{a.b}" : String).data)
    ∧ alistGet ([("a.b", PyVal.none)] : Ctx) (String.mk ['a'] ++ "." ++ String.mk ['b'])
      = some PyVal.none
    ∧ fill_value 1 (PyVal.str "@{a.b}") [("a.b", PyVal.none)] "cur"
      = some (Except.error (PyErr.valueReferenceError "cur"
          (String.mk ['a'] ++ "." ++ String.mk ['b']) ["a.b"])) :=
  ⟨by decide, by decide,
    C9_null_entry_unresolvable 0 "@{a.b}" [("a.b", PyVal.none)] "cur"
      ['a'] ['b'] ("@{a.b}" : String).data (by decide) (by decide)⟩

/-- Helper for C3: when the substitution loop returns a string successfully,
no reference token remains in it. -/
theorem fillLoop_ok_no_token (ctx : Ctx) (cur : String) :
    ∀ (fuel : Nat) (s s' : String), fillLoop ctx cur fuel s = some (Except.ok s') →
      findRef s'.data = Option.none := by
  intro fuel
  induction fuel with
  | zero => intro s s' h; cases h
  | succ n ih =>
    intro s s' h
    rw [fillLoop] at h
    rcases hf : findRef s.data with _ | ⟨st, pn, tok⟩
    · rw [hf] at h
      simp only [Option.some.injEq, Except.ok.injEq] at h
      rw [← h]
      exact hf
    · rw [hf] at h
      simp only at h
      by_cases hv : pyDictGet ctx (String.mk st ++ "." ++ String.mk pn) = PyVal.none
      · rw [if_pos hv] at h; cases h
      · rw [if_neg hv] at h
        exact ih _ s' h

/-- C3: the behaviour of `fill_value`, clause by clause.
1. Every non-string value is returned unchanged.
2. A string with no reference token is returned as is.
3. If the first token's key resolves to `None` (absent or null), a
   `ValueReferenceError` is raised naming the current step, the unresolved
   token `"<stepName>.<parameterName>"`, and the full list of context keys.
4. If the key resolves to a value, the token text is substituted by the
   stringified value (Python `str.replace`, i.e. every occurrence of that
   exact text) and the loop re-scans the resulting string from the start.
5. On success no token remains in the result. -/
theorem C3_fill_value_algorithm :
    (∀ (fuel : Nat) (v : PyVal) (ctx : Ctx) (cur : String),
      (∀ s, v ≠ PyVal.str s) → fill_value fuel v ctx cur = some (Except.ok v))
    ∧ (∀ (fuel : Nat) (s : String) (ctx : Ctx) (cur : String),
      findRef s.data = Option.none →
        fill_value (fuel + 1) (PyVal.str s) ctx cur = some (Except.ok (PyVal.str s)))
    ∧ (∀ (fuel : Nat) (s : String) (ctx : Ctx) (cur : String) (st pn tok : List Char),
      findRef s.data = some (st, pn, tok) →
        pyDictGet ctx (String.mk st ++ "." ++ String.mk pn) = PyVal.none →
        fill_value (fuel + 1) (PyVal.str s) ctx cur
          = some (Except.error (PyErr.valueReferenceError cur
              (String.mk st ++ "." ++ String.mk pn) (ctx.map Prod.fst))))
    ∧ (∀ (fuel : Nat) (s : String) (ctx : Ctx) (cur : String) (st pn tok : List Char),
      findRef s.data = some (st, pn, tok) →
        pyDictGet ctx (String.mk st ++ "." ++ String.mk pn) ≠ PyVal.none →
        fill_value (fuel + 1) (PyVal.str s) ctx cur
          = fill_value fuel (PyVal.str (pyReplace s (String.mk tok)
              (pyStr (pyDictGet ctx (String.mk st ++ "." ++ String.mk pn))))) ctx cur)
    ∧ (∀ (fuel : Nat) (s : String) (ctx : Ctx) (cur : String) (s' : String),
      fill_value fuel (PyVal.str s) ctx cur = some (Except.ok (PyVal.str s')) →
        findRef s'.data = Option.none) := by
  refine ⟨?_, ?_, ?_, ?_, ?_⟩
  · intro fuel v ctx cur h
    cases v with
    | str s => exact absurd rfl (h s)
    | _ => rfl
  · intro fuel s ctx cur h
    simp [fill_value, fillLoop, h, Except.map]
  · intro fuel s ctx cur st pn tok hf hv
    simp [fill_value, fillLoop, hf, hv, Except.map]
  · intro fuel s ctx cur st pn tok hf hv
    simp [fill_value, fillLoop, hf, hv]
  · intro fuel s ctx cur s' h
    rcases hl : fillLoop ctx cur fuel s with _ | r
    · rw [fill_value, hl] at h; cases h
    · rw [fill_value, hl] at h
      cases r with
      | error e => cases h
      | ok s0 =>
        simp [Except.map] at h
        subst h
        exact fillLoop_ok_no_token ctx cur fuel s _ hl

/-- Witness for C3, instantiating each clause at a concrete input. -/
theorem C3_witness :
    fill_value 1 (PyVal.int 3) [] "c" = some (Except.ok (PyVal.int 3))
    ∧ fill_value 1 (PyVal.str "plain") [] "c" = some (Except.ok (PyVal.str "plain"))
    ∧ fill_value 1 (PyVal.str "@{a.b}") [] "c"
      = some (Except.error (PyErr.valueReferenceError "c" "a.b" []))
    ∧ fill_value 2 (PyVal.str "@{a.b}") [("a.b", PyVal.str "X")] "c"
      = fill_value 1 (PyVal.str "X") [("a.b", PyVal.str "X")] "c"
    ∧ findRef ("X" : String).data = Option.none :=
  ⟨C3_fill_value_algorithm.1 1 (PyVal.int 3) [] "c" (fun s h => by cases h),
   C3_fill_value_algorithm.2.1 0 "plain" [] "c" (by decide),
   C3_fill_value_algorithm.2.2.1 0 "@{a.b}" [] "c" ['a'] ['b'] ("@{a.b}" : String).data
     (by decide) (by decide),
   by
     have h := C3_fill_value_algorithm.2.2.2.1 1 "@{a.b}" [("a.b", PyVal.str "X")] "c"
       ['a'] ['b'] ("@{a.b}" : String).data (by decide) (by decide)
     rw [h]
     decide,
   C3_fill_value_algorithm.2.2.2.2 2 "@{a.b}" [("a.b", PyVal.str "X")] "c" "X"
     (by decide)⟩

/-- C8 counterexample: the claim permits "any internal whitespace" around
the names, but the regex's `[\ ]*` admits only the space character.  The
string `@\x7b a TAB . b \x7d` (written here as an explicit character list)
is a token under the whitespace reading, yet the scanner rejects it. -/
theorem C8_counterexample :
    hasRefTokenWs ['@', '{', 'a', '\t', '.', 'b', '}']
    ∧ findRef ['@', '{', 'a', '\t', '.', 'b', '}'] = Option.none :=
  ⟨⟨[], [], ['a'], ['\t'], [], ['b'], [], [],
    (by intro c hc; cases hc),
    (by intro c hc; simp only [List.mem_singleton] at hc; rw [hc]; rfl),
    (by intro c hc; cases hc),
    (by intro c hc; cases hc),
    ⟨(by decide), (by decide)⟩, ⟨(by decide), (by decide)⟩, (by decide)⟩,
   (by decide)⟩

/-- C8 (amended): a reference token of the form `@\x7b stepName .
parameterName \x7d` is recognized exactly when `stepName` and
`parameterName` each match `[a-zA-Z0-9_]+`, with any internal *space
characters* (U+0020, the only whitespace the regex's `[\ ]*` admits)
around the names permitted; the captured names are returned with that
spacing stripped (they consist of identifier characters only). -/
theorem C8_token_grammar :
    (∀ l : List Char, (findRef l).isSome ↔ hasRefTokenSp l)
    ∧ (∀ l st pn tok : List Char,
        findRef l = some (st, pn, tok) → isIdentStr st ∧ isIdentStr pn) := by
  constructor
  · intro l
    constructor
    · intro h
      obtain ⟨⟨st, pn, tok⟩, hx⟩ := Option.isSome_iff_exists.mp h
      exact (findRef_sound hx).1
    · exact findRef_complete
  · intro l st pn tok h
    exact (findRef_sound h).2

/-- Witness for C8 at the concrete string `@\x7b a . b \x7dx`. -/
theorem C8_witness :
    hasRefTokenSp ("@{ a . b }x" : String).data
    ∧ (findRef ("@{ a . b }x" : String).data).isSome
    ∧ isIdentStr ['a'] ∧ isIdentStr ['b'] := by
  have hfind : findRef ("@{ a . b }x" : String).data
      = some (['a'], ['b'], ("@{ a . b }" : String).data) := by decide
  refine ⟨(C8_token_grammar.1 ("@{ a . b }x" : String).data).mp (by decide), by decide, ?_, ?_⟩
  · exact (C8_token_grammar.2 ("@{ a . b }x" : String).data ['a'] ['b']
      ("@{ a . b }" : String).data hfind).1
  · exact (C8_token_grammar.2 ("@{ a . b }x" : String).data ['a'] ['b']
      ("@{ a . b }" : String).data hfind).2

/-- C2: failure semantics of `BaseStep.run`, clause by clause.
1. A FAILURE step result carries status FAILURE and a single `error` output
   holding the stringified exception.
2. An exception during reference resolution is, in live mode, converted to
   `Except.ok` of that FAILURE result; in dry-run mode it is re-raised.
3. An exception from `process` behaves the same way in both modes.
4. In live mode `BaseStep.run` never re-raises: its outcome is always an
   `Except.ok` step result.
5. The workflow runner, having obtained a step result (failed or not),
   proceeds to run every remaining step. -/
theorem C2_step_failure_semantics :
    (∀ (d : StepData) (cls : StepClass) (e : PyErr),
      (failureResult d cls e).status = WorkflowStepStatus.FAILURE
      ∧ (failureResult d cls e).outputs.map (fun p => (p.name, p.value))
        = [("error", PyVal.str (pyErrStr e))])
    ∧ (∀ (fuel : Nat) (st : StepState) (ctx : Ctx) (inputs1 : List (String × Parameter))
        (ctx1 : Ctx) (e : PyErr),
      fillInputsLoop fuel st.data.name st.data.inputs (alistUpdate ctx st.data.context0)
        = some (inputs1, ctx1, some e) →
      BaseStep.run fuel st ctx false
        = some (⟨st.cls, {st.data with inputs := inputs1}⟩, ctx1,
            Except.ok (failureResult {st.data with inputs := inputs1} st.cls e))
      ∧ BaseStep.run fuel st ctx true
        = some (⟨st.cls, {st.data with inputs := inputs1}⟩, ctx1, Except.error e))
    ∧ (∀ (fuel : Nat) (st : StepState) (ctx : Ctx) (inputs1 : List (String × Parameter))
        (ctx1 : Ctx) (e : PyErr) (dry : Bool),
      fillInputsLoop fuel st.data.name st.data.inputs (alistUpdate ctx st.data.context0)
        = some (inputs1, ctx1, Option.none) →
      st.cls.process {st.data with inputs := inputs1} dry = Except.error e →
      BaseStep.run fuel st ctx dry
        = some (⟨st.cls, {st.data with inputs := inputs1}⟩, ctx1,
            if dry then Except.error e
            else Except.ok (failureResult {st.data with inputs := inputs1} st.cls e)))
    ∧ (∀ (fuel : Nat) (st : StepState) (ctx : Ctx)
        (x : StepState × Ctx × Except PyErr WorkflowStepResult),
      BaseStep.run fuel st ctx false = some x → ∃ r, x.2.2 = Except.ok r)
    ∧ (∀ (reg : List (String × StepClass)) (fuel : Nat) (s : WorkflowStep)
        (rest : List WorkflowStep) (ctx : Ctx) (status : WorkflowRunStatus)
        (s1 s2 : WorkflowStep) (ctx2 : Ctx) (r : WorkflowStepResult),
      WorkflowStep.init_input reg s = Except.ok s1 →
      WorkflowStep.run fuel s1 ctx false = some (s2, ctx2, Except.ok r) →
      runSteps reg fuel false (s :: rest) ctx status
        = (runSteps reg fuel false rest ctx2
            (if r.status = WorkflowStepStatus.FAILURE then WorkflowRunStatus.FAILURE
             else status)).map
           (fun t => ⟨s2 :: t.steps, t.ctx, r :: t.results, t.status, t.exc⟩)) := by
  refine ⟨?_, ?_, ?_, ?_, ?_⟩
  · intro d cls e
    exact ⟨rfl, rfl⟩
  · intro fuel st ctx inputs1 ctx1 e hfill
    constructor <;> simp [BaseStep.run, hfill]
  · intro fuel st ctx inputs1 ctx1 e dry hfill hproc
    cases dry <;> simp [BaseStep.run, hfill, hproc]
  · intro fuel st ctx x h
    rw [BaseStep.run] at h
    rcases hfill : fillInputsLoop fuel st.data.name st.data.inputs
        (alistUpdate ctx st.data.context0) with _ | ⟨inputs1, ctx1, exc⟩
    · rw [hfill] at h; cases h
    · rw [hfill] at h
      cases exc with
      | some e =>
        simp only [Bool.false_eq_true, if_false, Option.some.injEq] at h
        exact ⟨_, by rw [← h]⟩
      | none =>
        simp only at h
        rcases hproc : st.cls.process {st.data with inputs := inputs1} false with e | res <;>
          rw [hproc] at h <;>
          simp only [Bool.false_eq_true, if_false, Option.some.injEq] at h <;>
          exact ⟨_, by rw [← h]⟩
  · intro reg fuel s rest ctx status s1 s2 ctx2 r hinit hrun
    simp [runSteps, hinit, hrun]

/-- C4: the aggregate run status is FAILURE iff at least one step result is
FAILURE (this also holds on the synthetic input-failure path, whose single
result is itself a FAILURE), the status is SUCCESS otherwise (it is never
one of the other three `WorkflowRunStatus` constructors), and on a
completed run that passed input validation the per-step results are listed
in declaration order, one per declared step, provided each step's type is
registered (which construction guarantees - `WorkflowStep.validate_type`
rejects unregistered types). -/
theorem C4_aggregate_status (reg : List (String × StepClass)) (fuel : Nat)
    (wd : WorkflowDef) (ins : Option (List (String × PyVal))) (dry : Bool)
    (o : RunOutcome) (rr : WorkflowRunResult)
    (hrun : WorkflowDef.run reg fuel wd ins dry = some o)
    (hok : o.result = Except.ok rr) :
    (rr.status = WorkflowRunStatus.FAILURE
      ↔ ∃ r ∈ rr.result, r.status = WorkflowStepStatus.FAILURE)
    ∧ ((¬ ∃ r ∈ rr.result, r.status = WorkflowStepStatus.FAILURE) →
        rr.status = WorkflowRunStatus.SUCCESS)
    ∧ ((∀ s ∈ wd.steps, (alistGet reg s.type).isSome) →
        (runValidatePhase (runSeededInputs wd ins dry) wd.inputs).2.1 = [] →
        rr.result.map (fun r => r.step_name) = wd.steps.map (fun s => s.name)) := by
  rcases run_shape reg fuel wd ins dry o hrun with ⟨e, he⟩ | ⟨herr, hres⟩ | ⟨herr, so, hsteps, hexc, hres⟩
  · rw [he] at hok; cases hok
  · rw [hres] at hok
    cases hok
    refine ⟨?_, ?_, ?_⟩
    · constructor
      · intro _
        exact ⟨{ step_name := "input", step_type := "input",
                 status := WorkflowStepStatus.FAILURE,
                 status_reason := some (String.intercalate "; "
                   (runValidatePhase (runSeededInputs wd ins dry) wd.inputs).2.1),
                 inputs := [], outputs := [] }, by simp [inputFailureResult], rfl⟩
      · intro _; rfl
    · intro hne
      exact (hne
        ⟨{ step_name := "input", step_type := "input",
           status := WorkflowStepStatus.FAILURE,
           status_reason := some (String.intercalate "; "
             (runValidatePhase (runSeededInputs wd ins dry) wd.inputs).2.1),
           inputs := [], outputs := [] }, by simp [inputFailureResult], rfl⟩).elim
    · intro _ hempty
      exact absurd hempty herr
  · rw [hres] at hok
    cases hok
    have hiff := runSteps_status_iff reg fuel dry wd.steps (runSeedContext wd ins dry)
      WorkflowRunStatus.SUCCESS so hsteps hexc
    refine ⟨?_, ?_, ?_⟩
    · simpa using hiff
    · intro hne
      rcases runSteps_status_cases reg fuel dry wd.steps (runSeedContext wd ins dry)
          WorkflowRunStatus.SUCCESS so hsteps with h | h
      · exact h
      · exfalso
        rcases hiff.mp h with hl | hr
        · cases hl
        · exact hne hr
    · intro hreg _
      exact runSteps_result_names reg fuel dry wd.steps (runSeedContext wd ins dry)
        WorkflowRunStatus.SUCCESS so hreg hsteps hexc

/-- Witness for C4 on the one-dummy-step workflow, run live: no step result
is a FAILURE, so the aggregate status is SUCCESS. -/
theorem C4_witness :
    (∀ s ∈ helloWorkflow.steps, (alistGet registered_steps s.type).isSome)
    ∧ (runValidatePhase (runSeededInputs helloWorkflow Option.none false)
        helloWorkflow.inputs).2.1 = []
    ∧ ∃ o rr, WorkflowDef.run registered_steps 10 helloWorkflow Option.none false = some o
      ∧ o.result = Except.ok rr
      ∧ (¬ rr.status = WorkflowRunStatus.FAILURE)
      ∧ (¬ ∃ r ∈ rr.result, r.status = WorkflowStepStatus.FAILURE)
      ∧ rr.status = WorkflowRunStatus.SUCCESS
      ∧ rr.result.map (fun r => r.step_name) = helloWorkflow.steps.map (fun s => s.name) := by
  have hobs : runObs (WorkflowDef.run registered_steps 10 helloWorkflow Option.none false)
      = some (Except.ok (WorkflowRunStatus.SUCCESS,
          [("step1", WorkflowStepStatus.SUCCESS, Option.none,
            [("output", PyVal.str "Hello, World!")])])) := by decide
  refine ⟨by decide, by decide, ?_⟩
  rcases hrun : WorkflowDef.run registered_steps 10 helloWorkflow Option.none false with _ | o
  · rw [hrun] at hobs; cases hobs
  · rw [runObs, hrun] at hobs
    simp only [Option.map_some', Option.some.injEq] at hobs
    rcases hres : o.result with e | rr
    · rw [hres] at hobs
      simp [Except.map] at hobs
    · rw [hres] at hobs
      simp only [Except.map, Except.ok.injEq] at hobs
      have hstat : rr.status = WorkflowRunStatus.SUCCESS := congrArg Prod.fst hobs
      have hc4 := C4_aggregate_status registered_steps 10 helloWorkflow Option.none false
        o rr hrun hres
      have hne : ¬ ∃ r ∈ rr.result, r.status = WorkflowStepStatus.FAILURE := by
        intro hex
        have hcontra := hc4.1.mpr hex
        rw [hstat] at hcontra
        cases hcontra
      refine ⟨o, rr, rfl, hres, ?_, hne, hc4.2.1 hne, hc4.2.2 (by decide) (by decide)⟩
      rw [hstat]; intro hf; cases hf

/-- Witness for C2: a dummy step whose `input` references a missing key
(resolution raises), and one whose `input` is unbound (`process` raises). -/
theorem C2_witness :
    fillInputsLoop 1 refFailStep.data.name refFailStep.data.inputs
        (alistUpdate [] refFailStep.data.context0)
      = some (refFailStep.data.inputs, [], some refFailErr)
    ∧ BaseStep.run 1 refFailStep [] false
      = some (⟨refFailStep.cls, {refFailStep.data with inputs := refFailStep.data.inputs}⟩, [],
          Except.ok (failureResult {refFailStep.data with inputs := refFailStep.data.inputs}
            refFailStep.cls refFailErr))
    ∧ BaseStep.run 1 refFailStep [] true
      = some (⟨refFailStep.cls, {refFailStep.data with inputs := refFailStep.data.inputs}⟩, [],
          Except.error refFailErr)
    ∧ (failureResult refFailStep.data refFailStep.cls refFailErr).status
        = WorkflowStepStatus.FAILURE
    ∧ (failureResult refFailStep.data refFailStep.cls refFailErr).outputs.map
        (fun p => (p.name, p.value)) = [("error", PyVal.str (pyErrStr refFailErr))]
    ∧ procFailStep.cls.process
        {procFailStep.data with inputs := procFailStep.data.inputs} false
      = Except.error (PyErr.valueError "Input is not provided")
    ∧ BaseStep.run 1 procFailStep [] false
      = some (⟨procFailStep.cls, {procFailStep.data with inputs := procFailStep.data.inputs}⟩,
          [], Except.ok (failureResult
            {procFailStep.data with inputs := procFailStep.data.inputs} procFailStep.cls
            (PyErr.valueError "Input is not provided"))) := by
  have hfill : fillInputsLoop 1 refFailStep.data.name refFailStep.data.inputs
      (alistUpdate [] refFailStep.data.context0)
      = some (refFailStep.data.inputs, [], some refFailErr) := by decide
  have hfill2 : fillInputsLoop 1 procFailStep.data.name procFailStep.data.inputs
      (alistUpdate [] procFailStep.data.context0)
      = some (procFailStep.data.inputs, [], Option.none) := by decide
  have hproc : procFailStep.cls.process
      {procFailStep.data with inputs := procFailStep.data.inputs} false
      = Except.error (PyErr.valueError "Input is not provided") := by decide
  refine ⟨hfill,
    (C2_step_failure_semantics.2.1 1 refFailStep [] refFailStep.data.inputs [] refFailErr hfill).1,
    (C2_step_failure_semantics.2.1 1 refFailStep [] refFailStep.data.inputs [] refFailErr hfill).2,
    (C2_step_failure_semantics.1 refFailStep.data refFailStep.cls refFailErr).1,
    (C2_step_failure_semantics.1 refFailStep.data refFailStep.cls refFailErr).2,
    hproc, ?_⟩
  have h := C2_step_failure_semantics.2.2.1 1 procFailStep [] procFailStep.data.inputs []
    (PyErr.valueError "Input is not provided") false hfill2 hproc
  simpa using h

/-- C7: re-running a WorkflowDef leaks no state from a previous run. The
first run (in either mode, so in particular a dry run whose placeholder
values were bound into the definition's inputs and step instances) hands
back the mutated definition `o1.wd`; a second `run` on it, with the same
`run_inputs`, produces exactly the `result` (the WorkflowRunResult with
its step outputs) and final `run_inputs` that a run of the pristine
definition produces, because every bound instance is re-initialized via
`init_input` before the step executes. With equal modes the two calls'
results therefore coincide, as the witness instantiates. Hypothesis: every
step type of the definition is registered (guaranteed at construction by
`WorkflowStep.validate_type`). -/
theorem C7_rerun_no_leakage (reg : List (String × StepClass)) (fuel : Nat)
    (wd : WorkflowDef) (ins : Option (List (String × PyVal))) (dry1 dry2 : Bool)
    (o1 o2 o3 : RunOutcome)
    (hreg : ∀ s ∈ wd.steps, (alistGet reg s.type).isSome)
    (h1 : WorkflowDef.run reg fuel wd ins dry1 = some o1)
    (h2 : WorkflowDef.run reg fuel o1.wd ins dry2 = some o2)
    (h3 : WorkflowDef.run reg fuel wd ins dry2 = some o3) :
    o2.result = o3.result ∧ o2.run_inputs = o3.run_inputs := by
  obtain ⟨hie, hse⟩ := run_erase reg fuel wd ins dry1 o1 h1
  rcases run_congr reg fuel wd o1.wd ins dry2 hie.symm hse.symm hreg with
    ⟨hn, _⟩ | ⟨oa, ob, ha, hb, hri, hres⟩
  · rw [h3] at hn
    cases hn
  · rw [h3] at ha
    rw [h2] at hb
    injection ha with ha
    injection hb with hb
    subst ha
    subst hb
    exact ⟨hres.symm, hri.symm⟩

theorem C7_witness :
    (∀ s ∈ helloWorkflow.steps, (alistGet registered_steps s.type).isSome)
    ∧ WorkflowDef.run registered_steps 10 helloWorkflow (some []) false = some helloRunOutcome
    ∧ WorkflowDef.run registered_steps 10 helloRunOutcome.wd (some []) false
        = some helloRunOutcome
    ∧ helloRunOutcome.result = helloRunOutcome.result
    ∧ helloRunOutcome.run_inputs = helloRunOutcome.run_inputs := by
  refine ⟨by decide, rfl, rfl, ?_⟩
  exact C7_rerun_no_leakage registered_steps 10 helloWorkflow (some []) false false
    helloRunOutcome helloRunOutcome helloRunOutcome (by decide) rfl rfl rfl

end DocAgent
